import Mathlib

/-!
crtforge: certificate issuance pipeline and trust anchoring.

A shallow embedding of `cmd/services/appCrtService.go` and
`cmd/services/trustService.go`, followed by the properties proved about it.

Strings are Lean strings, file contents are lists of byte values, the file
system is a finite map from paths to nodes, and everything the Go code does to
the outside world (stat, mkdir, read, write, running a command, logging,
printing) is recorded in a chronological trace.  External commands and
environment-caused failures of file operations are oracles of the environment.
-/

namespace Crtforge

/-! ## Library functions used by the source -/

/-- Go `strings.Join(elems, sep)`: the first element, then `sep` and the next
element for every further element; the empty string for no elements. -/
def Join : List String → String → String
  | [], _ => ""
  | e :: rest, sep => rest.foldl (fun b s => b ++ sep ++ s) e

/-- Worker of `Split`: `cur` holds the characters of the current component in
reverse order. -/
def splitGo (sep : Char) : List Char → List Char → List String
  | [], cur => [String.mk cur.reverse]
  | c :: cs, cur =>
    if c = sep then String.mk cur.reverse :: splitGo sep cs []
    else splitGo sep cs (c :: cur)

/-- Go `strings.Split(s, sep)` for a one-character separator: the components
between the separators, an empty string giving one empty component. -/
def Split (s : String) (sep : Char) : List String :=
  splitGo sep s.data []

/-- Go `fmt.Sprint` of a `[]string`, as `fmt.Println` shows it: the elements
separated by blanks inside square brackets. -/
def sprintSlice (xs : List String) : String :=
  "[" ++ Join xs " " ++ "]"

/-! ## The world: file system, commands, trace -/

/-- A file path, as the Go code builds it. -/
abbrev Path := String

/-- File contents: the byte values, in order. -/
abbrev Bytes := List Nat

/-- What a path of the file system holds. -/
inductive Node
  | dir
  | file (content : Bytes)
deriving DecidableEq, Repr

/-- The file system: what each path holds, `none` for a path that does not
exist. -/
abbrev FS := Path → Option Node

/-- The file system with path `p` holding `n`. -/
def FS.set (fs : FS) (p : Path) (n : Node) : FS :=
  fun q => if q = p then some n else fs q

/-- An `exec.Command`: the program with its arguments, and `Dir` when set. -/
structure Cmd where
  args : List String
  dir : Option String
deriving DecidableEq, Repr

/-- What running a command gives: whether `err != nil`, the combined output,
and the file system it leaves. -/
structure ExecResult where
  failed : Bool
  output : String
  fs : FS

/-- The file operations whose failure the environment can cause. -/
inductive Op
  | mkdir (p : Path)
  | readFile (p : Path)
  | writeFile (p : Path)
  | create (p : Path)
  | openFile (p : Path)
  | write (p : Path)
deriving DecidableEq, Repr

/-- Log levels of the messages the source emits. -/
inductive Level
  | debug
  | info
  | warn
deriving DecidableEq, Repr

/-- One observable action of the program. -/
inductive Event
  | stat (p : Path)
  | mkdir (p : Path)
  | exec (c : Cmd)
  | readFile (p : Path)
  | writeFile (p : Path) (content : Bytes)
  | create (p : Path)
  | openFile (p : Path)
  | write (p : Path) (content : Bytes)
  | log (level : Level) (msg : String)
  | print (operands : List String)
deriving DecidableEq, Repr

/-- The environment of a run: the platform identifier (`runtime.GOOS`), the
behaviour of external commands, the failures of file operations that the
environment causes (permissions, full disk), the paths on which `os.Stat`
fails with an error other than "not exist" (permission denied on a path
component, a component that is not a directory, a symlink loop, a name too
long), the process environment variables, and the result of parsing and
executing the embedded template `appCnf.tmpl` on `appName`, `commonName` and
`altNames` (`none` when the template engine returns an error). -/
structure Env where
  goos : String
  exec : Cmd → FS → ExecResult
  fault : Op → FS → Bool
  statError : Path → Bool
  getenv : String → String
  applicationCnf : String → String → String → Option Bytes

/-- The state of a run: the file system and the actions performed so far, the
oldest first. -/
structure State where
  fs : FS
  trace : List Event

/-- The state at the start of a run on file system `fs`. -/
def State.init (fs : FS) : State := { fs := fs, trace := [] }

/-- Record an action. -/
def State.emit (s : State) (e : Event) : State :=
  { s with trace := s.trace ++ [e] }

/-- The value of `os.IsNotExist(err)` for the error of `os.Stat(p)` on file
system `fs`: true when the path is absent and the stat call fails with "not
exist", false when the path exists and also when the stat call fails with any
other error. -/
def isNotExist (env : Env) (p : Path) (fs : FS) : Bool :=
  (fs p).isNone && !env.statError p

/-- `os.Stat(p)` followed by `os.IsNotExist(err)`. -/
def statNotExist (env : Env) (p : Path) (s : State) : Bool × State :=
  (isNotExist env p s.fs, s.emit (.stat p))

/-- `os.Mkdir(p, perm)`: fails on an existing path; `true` is success. -/
def Mkdir (env : Env) (p : Path) (s : State) : Bool × State :=
  let s1 := s.emit (.mkdir p)
  if env.fault (.mkdir p) s.fs || (s.fs p).isSome then (false, s1)
  else (true, { s1 with fs := s.fs.set p .dir })

/-- `os.ReadFile(p)`: the content of a regular file, `none` on any error. -/
def ReadFile (env : Env) (p : Path) (s : State) : Option Bytes × State :=
  let s1 := s.emit (.readFile p)
  if env.fault (.readFile p) s.fs then (none, s1)
  else match s.fs p with
    | some (.file c) => (some c, s1)
    | _ => (none, s1)

/-- `os.WriteFile(p, content, perm)`: creates or truncates the file and writes
the content; `true` is success. -/
def WriteFile (env : Env) (p : Path) (content : Bytes) (s : State) : Bool × State :=
  let s1 := s.emit (.writeFile p content)
  if env.fault (.writeFile p) s.fs || s.fs p = some .dir then (false, s1)
  else (true, { s1 with fs := s.fs.set p (.file content) })

/-- `os.Create(p)`: creates or truncates the file; `true` is success. -/
def Create (env : Env) (p : Path) (s : State) : Bool × State :=
  let s1 := s.emit (.create p)
  if env.fault (.create p) s.fs || s.fs p = some .dir then (false, s1)
  else (true, { s1 with fs := s.fs.set p (.file []) })

/-- `os.OpenFile(p, os.O_WRONLY|os.O_APPEND, perm)`: opens an existing regular
file for appending; `true` is success. -/
def OpenFile (env : Env) (p : Path) (s : State) : Bool × State :=
  let s1 := s.emit (.openFile p)
  if env.fault (.openFile p) s.fs then (false, s1)
  else match s.fs p with
    | some (.file _) => (true, s1)
    | _ => (false, s1)

/-- `Write(content)` on a handle opened for appending on `p`: the content goes
to the end of the file; `true` is success. -/
def Write (env : Env) (p : Path) (content : Bytes) (s : State) : Bool × State :=
  let s1 := s.emit (.write p content)
  if env.fault (.write p) s.fs then (false, s1)
  else match s.fs p with
    | some (.file c) => (true, { s1 with fs := s.fs.set p (.file (c ++ content)) })
    | _ => (false, s1)

/-- `cmd.Run()` and `cmd.CombinedOutput()`: run the command; the result says
whether it failed and what it printed. -/
def Run (env : Env) (c : Cmd) (s : State) : (Bool × String) × State :=
  let r := env.exec c s.fs
  ((r.failed, r.output), { fs := r.fs, trace := s.trace ++ [.exec c] })

/-- How a run of the issuance pipeline ends: it returns, or `log.Fatal`
terminates the process with a message. -/
inductive Outcome
  | done (s : State)
  | fatal (msg : String) (s : State)

/-- The state in which a run ended. -/
def Outcome.state : Outcome → State
  | .done s => s
  | .fatal _ s => s

/-- Whether the run ended in `log.Fatal`. -/
def Outcome.isFatal : Outcome → Bool
  | .done _ => false
  | .fatal _ _ => true

/-- Sequencing: the next step runs only when the process is still alive. -/
def Outcome.andThen (o : Outcome) (f : State → Outcome) : Outcome :=
  match o with
  | .done s => f s
  | .fatal msg s => .fatal msg s

/-! ## `generateAltNames` -/

/-- The `for i, altName := range altNames` loop of `generateAltNames`: `i` is the
index of the next name and `dnsLines` the slice built so far. -/
def generateAltNamesLoop : Nat → List String → List String → List String
  | _, [], dnsLines => dnsLines
  | i, altName :: rest, dnsLines =>
    generateAltNamesLoop (i + 1) rest
      (dnsLines ++ ["DNS." ++ toString (i + 1) ++ " = " ++ altName])

/-- `generateAltNames` of `appCrtService.go`. -/
def generateAltNames (altNames : List String) : String :=
  Join (generateAltNamesLoop 0 altNames []) "\n"


/-- `prepareAppCnf` of `appCrtService.go`: the embedded template parsed and
executed on `appName`, `commonName` and the rendered alternative names; `none`
is a returned error. -/
def prepareAppCnf (env : Env) (appName commonName : String) (altNames : List String) :
    Option Bytes :=
  env.applicationCnf appName commonName (generateAltNames altNames)

/-! ## `CreateAppCrt` -/

/-- `CreateAppCrtOptions` of `appCrtService.go`. -/
structure CreateAppCrtOptions where
  OutputDir : String
  IntermediateCACnf : String
  IntermediateCACrt : String
  IntermediateCAKey : String
  RootCACrt : String
  AppName : String
  CommonName : String
  AltNames : List String
  P12 : Bool

/-- The local `appCrtDir`: `fmt.Sprintf("%s/%s", opts.OutputDir, opts.AppName)`. -/
def appCrtDir (opts : CreateAppCrtOptions) : Path :=
  opts.OutputDir ++ "/" ++ opts.AppName

/-- The local `applicationKeyFile`. -/
def applicationKeyFile (opts : CreateAppCrtOptions) : Path :=
  appCrtDir opts ++ "/" ++ opts.AppName ++ ".key"

/-- The local `applicationCnfFile`. -/
def applicationCnfFile (opts : CreateAppCrtOptions) : Path :=
  appCrtDir opts ++ "/" ++ opts.AppName ++ ".cnf"

/-- The local `applicationCsrFile`. -/
def applicationCsrFile (opts : CreateAppCrtOptions) : Path :=
  appCrtDir opts ++ "/" ++ opts.AppName ++ ".csr"

/-- The local `applicationCrtFile`. -/
def applicationCrtFile (opts : CreateAppCrtOptions) : Path :=
  appCrtDir opts ++ "/" ++ opts.AppName ++ ".crt"

/-- The local `appFullchainCrtFile`: `appCrtDir + "/fullchain.crt"`. -/
def appFullchainCrtFile (opts : CreateAppCrtOptions) : Path :=
  appCrtDir opts ++ "/fullchain.crt"

/-- The local `applicationPfxFile`. -/
def applicationPfxFile (opts : CreateAppCrtOptions) : Path :=
  appCrtDir opts ++ "/" ++ opts.AppName ++ ".pfx"

/-- The command `createAppKeyCmd` (line 58). -/
def createAppKeyCmd (opts : CreateAppCrtOptions) : Cmd :=
  { args := ["openssl", "genpkey", "-algorithm", "RSA", "-out", applicationKeyFile opts],
    dir := none }

/-- The command `createAppCsrCmd` (lines 92-97). -/
def createAppCsrCmd (opts : CreateAppCrtOptions) : Cmd :=
  { args := ["openssl", "req", "-new",
      "-key", applicationKeyFile opts,
      "-config", applicationCnfFile opts,
      "-out", applicationCsrFile opts],
    dir := none }

/-- The command `createAppCrtCmd` of the signing step (lines 111-121). -/
def createAppCrtCmd (opts : CreateAppCrtOptions) : Cmd :=
  { args := ["openssl", "x509", "-req",
      "-in", applicationCsrFile opts,
      "-CA", opts.IntermediateCACrt,
      "-CAkey", opts.IntermediateCAKey,
      "-CAcreateserial",
      "-days", "365",
      "-extensions", "v3_ext",
      "-extfile", applicationCnfFile opts,
      "-out", applicationCrtFile opts],
    dir := none }

/-- The command `createAppCrtCmd` of the export step (lines 188-196), run in
the app directory. -/
def createAppPfxCmd (opts : CreateAppCrtOptions) : Cmd :=
  { args := ["openssl", "pkcs12",
      "-in", appFullchainCrtFile opts,
      "-inkey", applicationKeyFile opts,
      "-password", "pass:changeit",
      "-export",
      "-out", applicationPfxFile opts],
    dir := some (appCrtDir opts) }

/-- Lines 41-52: create the app directory when it does not exist.  A fatal
message is the text the source passes to `log.Fatal`, without the text of the
error value, which the environment determines. -/
def stepAppDir (env : Env) (opts : CreateAppCrtOptions) (s : State) : Outcome :=
  let st := statNotExist env (appCrtDir opts) s
  if st.1 then
    let s1 := st.2.emit (.log .debug ("App dir is being created" ++ appCrtDir opts))
    let m := Mkdir env (appCrtDir opts) s1
    if m.1 then .done (m.2.emit (.log .debug ("App dir generated at " ++ appCrtDir opts)))
    else .fatal "Error while creating App dir: " m.2
  else .done (st.2.emit (.log .debug "App dir already exists, skipping."))

/-- Lines 54-66: create the app key with openssl when it does not exist. -/
def stepAppKey (env : Env) (opts : CreateAppCrtOptions) (s : State) : Outcome :=
  let st := statNotExist env (applicationKeyFile opts) s
  if st.1 then
    let s1 := st.2.emit (.log .debug "App Key is being created.")
    let r := Run env (createAppKeyCmd opts) s1
    if r.1.1 then .fatal "Error while creating App Key: " r.2
    else .done (r.2.emit (.log .debug ("App Key generated at " ++ applicationKeyFile opts)))
  else .done (st.2.emit (.log .debug "App Key already exists, skipping."))

/-- Lines 68-86: render and write the app cnf file when it does not exist. -/
def stepAppCnf (env : Env) (opts : CreateAppCrtOptions) (s : State) : Outcome :=
  let st := statNotExist env (applicationCnfFile opts) s
  if st.1 then
    let s1 := st.2.emit (.log .debug "App Cnf being created.")
    match prepareAppCnf env opts.AppName opts.CommonName opts.AltNames with
    | none => .fatal "Error while creating App Cnf from template:" s1
    | some appCnf =>
      let w := WriteFile env (applicationCnfFile opts) appCnf s1
      if w.1 then
        .done (w.2.emit (.log .debug ("App Cnf generated at " ++ applicationCnfFile opts)))
      else .fatal "Error while writing App Cnf to file: " w.2
  else .done (st.2.emit (.log .debug "App Cnf already exists, skipping."))

/-- Lines 88-105: create the signing request when it does not exist. -/
def stepAppCsr (env : Env) (opts : CreateAppCrtOptions) (s : State) : Outcome :=
  let st := statNotExist env (applicationCsrFile opts) s
  if st.1 then
    let s1 := st.2.emit (.log .debug "App Crt being created")
    let r := Run env (createAppCsrCmd opts) s1
    if r.1.1 then .fatal "Error while creating App Csr: " r.2
    else .done (r.2.emit (.log .debug ("App Csr generated at " ++ applicationCsrFile opts)))
  else .done (st.2.emit (.log .debug "App Csr already exists, skipping."))

/-- Lines 107-129: sign the request when the certificate does not exist. -/
def stepAppCrt (env : Env) (opts : CreateAppCrtOptions) (s : State) : Outcome :=
  let st := statNotExist env (applicationCrtFile opts) s
  if st.1 then
    let s1 := st.2.emit (.log .debug "App Crt being created.")
    let r := Run env (createAppCrtCmd opts) s1
    if r.1.1 then .fatal "Error while creating App Crt: " r.2
    else .done (r.2.emit (.log .debug ("App Crt generated at " ++ applicationCrtFile opts)))
  else .done (st.2.emit (.log .debug "App Crt already exists, skipping."))

/-- Lines 151-182: with the three contents read, create `fullchain.crt` when
it does not exist and append the app, intermediate and root contents. -/
def writeFullchain (env : Env) (opts : CreateAppCrtOptions)
    (rootCaCrtContent intermediateCaCrtContent appCrtContent : Bytes) (s : State) : Outcome :=
  let st := statNotExist env (appFullchainCrtFile opts) s
  if st.1 then
    let s1 := st.2.emit (.log .debug "App fullchain crt being created.")
    let c := Create env (appFullchainCrtFile opts) s1
    if c.1 then
      let o := OpenFile env (appFullchainCrtFile opts) c.2
      if o.1 then
        let w1 := Write env (appFullchainCrtFile opts) appCrtContent o.2
        if w1.1 then
          let w2 := Write env (appFullchainCrtFile opts) intermediateCaCrtContent w1.2
          if w2.1 then
            let w3 := Write env (appFullchainCrtFile opts) rootCaCrtContent w2.2
            if w3.1 then
              .done (w3.2.emit
                (.log .debug ("App Fullchain crt generated at " ++ applicationCrtFile opts)))
            else .fatal "Error while writing the root ca crt to the fullchain crt file:" w3.2
          else
            .fatal "Error while writing the intermediate ca cert to file fullchain file:" w2.2
        else .fatal "Error while writing the app crt to the fullchain crt file:" w1.2
      else .fatal "Error while opening fullchain crt file:" o.2
    else .fatal "Error while creating fullchain crt file:" c.2
  else .done (st.2.emit (.log .debug "App fullchain crt already exits, skipping."))

/-- Lines 131-182: read the root, intermediate and app certificates, in that
order, then assemble `fullchain.crt`. -/
def stepFullchain (env : Env) (opts : CreateAppCrtOptions) (s : State) : Outcome :=
  let r1 := ReadFile env opts.RootCACrt s
  match r1.1 with
  | none => .fatal "Error while reading Root CA cert for fullchain:" r1.2
  | some rootCaCrtContent =>
    let r2 := ReadFile env opts.IntermediateCACrt r1.2
    match r2.1 with
    | none => .fatal "Error while reading Intermediate CA cert for fullchain:" r2.2
    | some intermediateCaCrtContent =>
      let r3 := ReadFile env (applicationCrtFile opts) r2.2
      match r3.1 with
      | none => .fatal "Error while reading App cert for fullchain:" r3.2
      | some appCrtContent =>
        writeFullchain env opts rootCaCrtContent intermediateCaCrtContent appCrtContent r3.2

/-- Lines 184-205: export the pfx bundle when it does not exist and the
request asks for it. -/
def stepPfx (env : Env) (opts : CreateAppCrtOptions) (s : State) : Outcome :=
  let st := statNotExist env (applicationPfxFile opts) s
  if st.1 then
    if opts.P12 then
      let s1 := st.2.emit (.log .debug "Creating p12 files.")
      let r := Run env (createAppPfxCmd opts) s1
      if r.1.1 then .fatal "Error while creating App Crt: " r.2
      else .done (r.2.emit (.log .debug ("App Pfx generated at " ++ applicationCrtFile opts)))
    else .done st.2
  else .done (st.2.emit (.log .debug "App pfx already exits, skipping."))

/-- Lines 206-215: the final summary. -/
def stepSummary (env : Env) (opts : CreateAppCrtOptions) (s : State) : Outcome :=
  let s1 := s.emit (.log .info "App certs created successfully.")
  let s2 := s1.emit (.log .info ("App name: " ++ opts.AppName))
  let s3 := s2.emit (.log .info ("Domains: " ++ sprintSlice opts.AltNames))
  let s4 := s3.emit
    (.log .info ("To see your cert files, please check the dir: " ++ appCrtDir opts))
  if env.getenv "CONTAINER" = "true" then
    let s5 := s4.emit (.log .warn "You are running the crtforge from container.")
    let s6 := s5.emit (.log .info "The paths you see in the logs is not valid.")
    let s7 := s6.emit (.log .info "You should replace /root with your own home directory.")
    .done (s7.emit
      (.log .info "For example /root/.config/crtforge /home/user/.config/crtforge"))
  else .done s4

/-- The first five steps of `CreateAppCrt` (lines 41-129): directory, key,
cnf, csr, crt. -/
def provision (env : Env) (opts : CreateAppCrtOptions) (s : State) : Outcome :=
  ((((stepAppDir env opts s).andThen (stepAppKey env opts)).andThen
    (stepAppCnf env opts)).andThen (stepAppCsr env opts)).andThen (stepAppCrt env opts)

/-- `CreateAppCrt` of `appCrtService.go`: the steps in source order, each one
running only when no earlier one ended the process. -/
def CreateAppCrt (env : Env) (opts : CreateAppCrtOptions) (s : State) : Outcome :=
  (((provision env opts s).andThen (stepFullchain env opts)).andThen
    (stepPfx env opts)).andThen (stepSummary env opts)

/-! ## `trustService.go` -/

/-- `detectOs`: `runtime.GOOS`. -/
def detectOs (env : Env) : String := env.goos

/-- `isLinux`. -/
def isLinux (env : Env) : Bool := detectOs env == "linux"

/-- `isMacos`. -/
def isMacos (env : Env) : Bool := detectOs env == "darwin"

/-- The Go assignment `a[i], a[j] = a[j], a[i]` on a slice. -/
def swap (xs : List String) (i j : Nat) : List String :=
  match xs[i]?, xs[j]? with
  | some a, some b => (xs.set i b).set j a
  | _, _ => xs

/-- The loop `for i, j := 0, len-1; i < j; i, j = i+1, j-1` of lines 49-51,
with a bound on the number of iterations left. -/
def reverseLoop : Nat → Nat → Nat → List String → List String
  | 0, _, _, xs => xs
  | fuel + 1, i, j, xs =>
    if i < j then reverseLoop fuel (i + 1) (j - 1) (swap xs i j) else xs

/-- Lines 48-51: the path split on "/" and reversed in place.  The loop gets
as many iterations as the slice has elements, which is more than it uses. -/
def crtPathSplitted (crtPath : String) : List String :=
  let xs := Split crtPath '/'
  reverseLoop xs.length 0 (xs.length - 1) xs

/-- Line 54: `caName`, `none` when an index is out of range (a run-time
panic). -/
def caNameOf (splitted : List String) : Option String :=
  match splitted[3]?, splitted[2]?, splitted[0]? with
  | some c3, some c2, some c0 => some (c3 ++ "-" ++ c2 ++ "-" ++ c0)
  | _, _, _ => none

/-- Lines 57-69: `caPath`, chosen by probing the marker files in order. -/
def selectCaPath (env : Env) (caName : String) (s : State) : String × State :=
  let d := statNotExist env "/etc/debian_version" s
  if !d.1 then ("/usr/local/share/ca-certificates/" ++ caName, d.2)
  else
    let a := statNotExist env "/etc/arch-release" d.2
    if !a.1 then ("/etc/ca-certificates/trust-source/anchors/" ++ caName, a.2)
    else
      let r := statNotExist env "/etc/redhat-release" a.2
      if !r.1 then ("/etc/pki/ca-trust/source/anchors/" ++ caName, r.2)
      else
        let f := statNotExist env "/etc/fedora-release" r.2
        if !f.1 then ("/etc/pki/ca-trust/source/anchors/" ++ caName, f.2)
        else ("/usr/local/share/ca-certificates/" ++ caName, f.2)

/-- How a call of `trustCrtOnLinux` ends: it returns its error value (`none`
is `nil`), or it panics on an index out of range. -/
inductive LinuxResult
  | returned (err : Option String) (s : State)
  | panic (s : State)

/-- The state in which the call ended. -/
def LinuxResult.state : LinuxResult → State
  | .returned _ s => s
  | .panic s => s

/-- `trustCrtOnLinux` of `trustService.go`. -/
def trustCrtOnLinux (env : Env) (crtPath : String) (s : State) : LinuxResult :=
  let s1 := s.emit (.print [crtPath, "is being trusted on Linux..."])
  let splitted := crtPathSplitted crtPath
  let s2 := s1.emit (.print [sprintSlice splitted])
  match caNameOf splitted with
  | none => .panic s2
  | some caName =>
    let s3 := s2.emit (.print [caName])
    let c := selectCaPath env caName s3
    let r := Run env { args := ["sudo", "cp", crtPath, c.1], dir := none } c.2
    if r.1.1 then .returned (some "error while adding cert to system") r.2
    else .returned none r.2

/-- The command of line 83. -/
def isCrtTrustedCommand (crtPath : String) : Cmd :=
  { args := ["security", "verify-cert", "-c", crtPath], dir := none }

/-- The command of line 91. -/
def allowCommand : Cmd :=
  { args := ["sudo", "security", "authorizationdb", "write",
      "com.apple.trust-settings.admin", "allow"],
    dir := none }

/-- The command of line 97. -/
def trustCrtCommand (crtPath : String) : Cmd :=
  { args := ["sudo", "security", "add-trusted-cert", "-d", "-r", "trustRoot", "-k",
      "/Library/Keychains/System.keychain", crtPath],
    dir := none }

/-- The command of line 104. -/
def disallowCommand : Cmd :=
  { args := ["sudo", "security", "authorizationdb", "remove",
      "com.apple.trust-settings.admin"],
    dir := none }

/-- `trustCrtOnMacos` of `trustService.go`: the returned error (`none` is
`nil`) and the state.  The text of a wrapped error value is left out of the
message. -/
def trustCrtOnMacos (env : Env) (crtPath : String) (s : State) : Option String × State :=
  let s1 := s.emit (.print [crtPath, "is being trusted on MacOS..."])
  let v := Run env (isCrtTrustedCommand crtPath) s1
  if !v.1.1 then (none, v.2.emit (.print [crtPath, "is already found on keychain"]))
  else
    let s2 := v.2.emit (.print [crtPath, "will be trusted on keychain"])
    let a := Run env allowCommand s2
    if a.1.1 then
      (some ("failed while getting permission to add cert to the keychain: " ++ a.1.2), a.2)
    else
      let t := Run env (trustCrtCommand crtPath) a.2
      if t.1.1 then
        (some "failed to add cert to keychain: ", t.2.emit (.print ["Command output:", t.1.2]))
      else
        let d := Run env disallowCommand t.2
        if d.1.1 then (some ("failed while removing keychain permission : " ++ d.1.2), d.2)
        else (none, d.2.emit (.print [crtPath, "has been added to keychain successfully."]))

/-- How a call of `TrustCrt` ends: it returns (it has no result value),
`log.Fatal` terminates the process, or the Linux branch panics. -/
inductive TrustOutcome
  | returned (s : State)
  | fatal (msg : String) (s : State)
  | panicked (s : State)

/-- The state in which the call ended. -/
def TrustOutcome.state : TrustOutcome → State
  | .returned s => s
  | .fatal _ s => s
  | .panicked s => s

/-- `TrustCrt` of `trustService.go`.  The result of `trustCrtOnLinux` is not
bound to anything in the source, so its error value goes nowhere. -/
def TrustCrt (env : Env) (crtPath : String) (s : State) : TrustOutcome :=
  let os := detectOs env
  let s1 := s.emit (.print ["Os:", os])
  if isLinux env then
    match trustCrtOnLinux env crtPath s1 with
    | .returned _ s2 => .returned s2
    | .panic s2 => .panicked s2
  else if isMacos env then
    match trustCrtOnMacos env crtPath s1 with
    | (some _, s2) => .fatal "Error while trusting cert: " s2
    | (none, s2) => .returned s2
  else .returned (s1.emit (.print ["Unknown OS. Can not trust the cert."]))

/-! ## Specification-side definitions and concrete environments -/

/-- The marker files of the Linux distribution families with their
trust-anchor directories, in the order in which they are probed. -/
def markerDirs : List (Path × String) :=
  [("/etc/debian_version", "/usr/local/share/ca-certificates/"),
   ("/etc/arch-release", "/etc/ca-certificates/trust-source/anchors/"),
   ("/etc/redhat-release", "/etc/pki/ca-trust/source/anchors/"),
   ("/etc/fedora-release", "/etc/pki/ca-trust/source/anchors/")]

/-- The trust-anchor directory as the specification words it: that of the
first present marker, the Debian/Ubuntu directory when none is present. -/
def anchorDir (present : Path → Bool) : String :=
  match markerDirs.find? (fun m => present m.1) with
  | some m => m.2
  | none => "/usr/local/share/ca-certificates/"

/-- The empty file system. -/
def emptyFS : FS := fun _ => none

/-- A well-behaved tool: a command ending in `-out <file>` writes that file
and succeeds, any other command succeeds and changes nothing. -/
def toolExec (c : Cmd) (fs : FS) : ExecResult :=
  match c.args.reverse with
  | p :: "-out" :: _ => { failed := false, output := "", fs := fs.set p (.file [7]) }
  | _ => { failed := false, output := "", fs := fs }

/-- An environment on Linux with the well-behaved tool and no failing file
operation. -/
def linuxEnv : Env :=
  { goos := "linux"
    exec := toolExec
    fault := fun _ _ => false
    statError := fun _ => false
    getenv := fun _ => ""
    applicationCnf := fun _ _ altNames => some (altNames.data.map Char.toNat) }

/-- A certificate path as crtforge lays its files out. -/
def rootCaPath : String := "/root/.config/crtforge/default/rootCA/rootCA.crt"

/-- A file system that holds the Arch marker file and nothing else. -/
def archFS : FS := emptyFS.set "/etc/arch-release" (.file [])

/-- The action of `TrustCrt` that follows its platform line `Os: ...`: the
first action of the branch it took. -/
def TrustOutcome.branchEvent (o : TrustOutcome) (s : State) : Option Event :=
  o.state.trace[s.trace.length + 1]?

/-- How a call of `TrustCrt` ends, as its caller or user can tell. -/
inductive Ending
  | returned
  | fatal (msg : String)
  | panicked
deriving DecidableEq, Repr

/-- How the call ended. -/
def TrustOutcome.ending : TrustOutcome → Ending
  | .returned _ => .returned
  | .fatal msg _ => .fatal msg
  | .panicked _ => .panicked

/-- A macOS host on which the certificate is not yet trusted and adding it to
the keychain fails, every other command succeeding. -/
def addFailsExec (c : Cmd) (fs : FS) : ExecResult :=
  if c.args.take 2 = ["security", "verify-cert"] then
    { failed := true, output := "", fs := fs }
  else if c.args.take 3 = ["sudo", "security", "add-trusted-cert"] then
    { failed := true, output := "The authorization was denied.", fs := fs }
  else { failed := false, output := "", fs := fs }

/-- The environment of that macOS host. -/
def addFailsEnv : Env :=
  { goos := "darwin"
    exec := addFailsExec
    fault := fun _ _ => false
    statError := fun _ => false
    getenv := fun _ => ""
    applicationCnf := fun _ _ _ => none }

/-- An environment on Linux in which commands behave as `exec` says. -/
def linuxWith (exec : Cmd → FS → ExecResult) : Env :=
  { linuxEnv with exec := exec }

/-- A command run that fails. -/
def failingExec (_ : Cmd) (fs : FS) : ExecResult :=
  { failed := true, output := "cp: permission denied", fs := fs }

/-- The error value a call of `trustCrtOnLinux` returned, `none` also for a
panic. -/
def LinuxResult.err : LinuxResult → Option String
  | .returned err _ => err
  | .panic _ => none

/-- The file a command writes: the last argument when it follows `-out`, as
in every command of `CreateAppCrt`. -/
def Cmd.outFile (c : Cmd) : Option Path :=
  match c.args.reverse with
  | p :: "-out" :: _ => some p
  | _ => none

/-- The path an action creates or writes, `none` for an action that writes
nothing. -/
def Event.target : Event → Option Path
  | .mkdir p => some p
  | .exec c => c.outFile
  | .writeFile p _ => some p
  | .create p => some p
  | .openFile p => some p
  | .write p _ => some p
  | .stat _ => none
  | .readFile _ => none
  | .log _ _ => none
  | .print _ => none

/-- Actions that run no command and write nothing: stat, read, log, print. -/
def Event.readOnly : Event → Bool
  | .stat _ => true
  | .readFile _ => true
  | .log _ _ => true
  | .print _ => true
  | _ => false

/-- The invocation contract of the external tool: a command never removes an
existing path, and a command that succeeds leaves its output file in place. -/
structure ToolContract (env : Env) : Prop where
  keeps : ∀ (c : Cmd) (fs : FS) (p : Path), fs p ≠ none → (env.exec c fs).fs p ≠ none
  creates : ∀ (c : Cmd) (fs : FS) (p : Path), c.outFile = some p →
    (env.exec c fs).failed = false → (env.exec c fs).fs p ≠ none

/-- The output of pipeline step `j`: app directory, key, cnf, csr, crt,
fullchain.crt, and the pfx bundle for step 7. -/
def artifact (opts : CreateAppCrtOptions) : Nat → Path
  | 1 => appCrtDir opts
  | 2 => applicationKeyFile opts
  | 3 => applicationCnfFile opts
  | 4 => applicationCsrFile opts
  | 5 => applicationCrtFile opts
  | 6 => appFullchainCrtFile opts
  | _ => applicationPfxFile opts

/-- A request for the app `web` under `/out`, signed by the CA under `/ca`. -/
def webOpts : CreateAppCrtOptions :=
  { OutputDir := "/out"
    IntermediateCACnf := "/ca/int.cnf"
    IntermediateCACrt := "/ca/int.crt"
    IntermediateCAKey := "/ca/int.key"
    RootCACrt := "/ca/root.crt"
    AppName := "web"
    CommonName := "web.local"
    AltNames := ["web.local"]
    P12 := true }

/-- A file system that holds the intermediate certificate but no root
certificate. -/
def noRootFS : FS := emptyFS.set "/ca/int.crt" (.file [2, 2])

/-- A file system that holds the intermediate and the root certificate. -/
def caFS : FS := noRootFS.set "/ca/root.crt" (.file [3, 3, 3])

/-- What step `j` of the pipeline does when its output exists: it probes the
output and logs that it skips. -/
def skipEvents (opts : CreateAppCrtOptions) : Nat → List Event
  | 1 => [.stat (appCrtDir opts), .log .debug "App dir already exists, skipping."]
  | 2 => [.stat (applicationKeyFile opts), .log .debug "App Key already exists, skipping."]
  | 3 => [.stat (applicationCnfFile opts), .log .debug "App Cnf already exists, skipping."]
  | 4 => [.stat (applicationCsrFile opts), .log .debug "App Csr already exists, skipping."]
  | 5 => [.stat (applicationCrtFile opts), .log .debug "App Crt already exists, skipping."]
  | _ => []

/-- The trace of a run that skips steps 1 to `k`. -/
def skipTrace (opts : CreateAppCrtOptions) : Nat → List Event
  | 0 => []
  | k + 1 => skipTrace opts k ++ skipEvents opts (k + 1)

/-- The actions with which step `j` begins when it runs: the probe, the log
line and the command of steps 1, 2, 4 and 5, the probe and the log line of
step 3, the first read of step 6. -/
def startTrace (opts : CreateAppCrtOptions) : Nat → List Event
  | 1 => [.stat (appCrtDir opts),
          .log .debug ("App dir is being created" ++ appCrtDir opts),
          .mkdir (appCrtDir opts)]
  | 2 => [.stat (applicationKeyFile opts), .log .debug "App Key is being created.",
          .exec (createAppKeyCmd opts)]
  | 3 => [.stat (applicationCnfFile opts), .log .debug "App Cnf being created."]
  | 4 => [.stat (applicationCsrFile opts), .log .debug "App Crt being created",
          .exec (createAppCsrCmd opts)]
  | 5 => [.stat (applicationCrtFile opts), .log .debug "App Crt being created.",
          .exec (createAppCrtCmd opts)]
  | 6 => [.readFile opts.RootCACrt]
  | _ => []

/-- The action by which step `j` produces its output: the mkdir, the command,
the write of the rendered cnf (none when the template fails), the creation of
`fullchain.crt`. -/
def mainAction (env : Env) (opts : CreateAppCrtOptions) : Nat → Option Event
  | 1 => some (.mkdir (appCrtDir opts))
  | 2 => some (.exec (createAppKeyCmd opts))
  | 3 => (prepareAppCnf env opts.AppName opts.CommonName opts.AltNames).map
          (Event.writeFile (applicationCnfFile opts))
  | 4 => some (.exec (createAppCsrCmd opts))
  | 5 => some (.exec (createAppCrtCmd opts))
  | 6 => some (.create (appFullchainCrtFile opts))
  | _ => none

/-- The fatal messages with which step `j` can end before its main action:
the template error of step 3, the read errors of step 6. -/
def ownAbort : Nat → List String
  | 3 => ["Error while creating App Cnf from template:"]
  | 6 => ["Error while reading Root CA cert for fullchain:",
          "Error while reading Intermediate CA cert for fullchain:",
          "Error while reading App cert for fullchain:"]
  | _ => []

/-- The run `o` continues the state `s`: its trace is that of `s` followed by
actions that all satisfy `P`. -/
def Ext (P : Event → Prop) (s : State) (o : Outcome) : Prop :=
  ∃ new, o.state.trace = s.trace ++ new ∧ ∀ e ∈ new, P e

/-- The run `o` resumed at step `m` after the actions `pre`: its trace starts
with `pre` and the first actions of step `m`, and step `m` reached its main
action or ended the process with one of its own fatal messages. -/
def Resumed (env : Env) (opts : CreateAppCrtOptions) (m : Nat) (pre : List Event)
    (o : Outcome) : Prop :=
  (pre ++ startTrace opts m) <+: o.state.trace
    ∧ ((∃ e, mainAction env opts m = some e ∧ e ∈ o.state.trace)
        ∨ ∃ msg s, o = .fatal msg s ∧ msg ∈ ownAbort m)

/-- The run `o2` continues the run `o1` with actions that all satisfy `P`, and
is `o1` itself when that one ended the process. -/
def After (P : Event → Prop) (o1 o2 : Outcome) : Prop :=
  (∃ new, o2.state.trace = o1.state.trace ++ new ∧ ∀ e ∈ new, P e)
    ∧ ∀ msg s, o1 = .fatal msg s → o2 = o1

/-- The state of a run on file system `fs` that has skipped steps 1 to `k`. -/
def skipped (opts : CreateAppCrtOptions) (fs : FS) (k : Nat) : State :=
  { fs := fs, trace := skipTrace opts k }

/-- A file system left by a run that was interrupted after the key step: the
CA files, the app directory and the app key. -/
def interruptedFS : FS :=
  (caFS.set "/out/web" .dir).set "/out/web/web.key" (.file [1])

/-- The run `o` continues the state `s` quietly: the file system is the same
and the new actions run no command and write nothing. -/
def Quiet (s : State) (o : Outcome) : Prop :=
  o.state.fs = s.fs ∧ Ext (fun e => e.readOnly = true ∧ e.target = none) s o

/-- No external command touches path `p` unless `p` is its `-out` file. -/
def LeavesAlone (env : Env) (p : Path) : Prop :=
  ∀ (c : Cmd) (fs : FS), c.outFile ≠ some p → (env.exec c fs).fs p = fs p

/-- The request for an app that is itself named `fullchain`: its certificate
path `<dir>/fullchain.crt` is the path of the chain file. -/
def fullchainOpts : CreateAppCrtOptions := { webOpts with AppName := "fullchain" }

/-- A file system with the CA files and the app directory of `web`. -/
def lockedFS : FS := caFS.set "/out/web" .dir

/-- An environment in which the app directory of `web` cannot be searched:
`os.Stat` on the files in it fails with "permission denied". -/
def lockedEnv : Env :=
  { linuxEnv with
    statError := fun p =>
      ["/out/web/web.key", "/out/web/web.cnf", "/out/web/web.csr", "/out/web/web.crt",
        "/out/web/fullchain.crt", "/out/web/web.pfx"].contains p }

/-! ## Properties of the library functions -/

theorem intercalate_go_eq_foldl (sep : String) (rest : List String) (acc : String) :
    String.intercalate.go acc sep rest = rest.foldl (fun b s => b ++ sep ++ s) acc := by
  induction rest generalizing acc with
  | nil => rfl
  | cons a as ih => simp [String.intercalate.go, ih]

theorem Join_eq_intercalate (xs : List String) (sep : String) :
    Join xs sep = String.intercalate sep xs := by
  cases xs with
  | nil => rfl
  | cons e rest => simp [Join, String.intercalate, intercalate_go_eq_foldl]

theorem generateAltNamesLoop_eq (altNames : List String) (i : Nat) (dnsLines : List String) :
    generateAltNamesLoop i altNames dnsLines
      = dnsLines ++ (altNames.enumFrom i).map
          (fun p => "DNS." ++ toString (p.1 + 1) ++ " = " ++ p.2) := by
  induction altNames generalizing i dnsLines with
  | nil => simp [generateAltNamesLoop]
  | cons a as ih => simp [generateAltNamesLoop, ih, List.enumFrom]

theorem swap_ends (pre mid post : List String) (a b : String) :
    swap (pre ++ a :: (mid ++ b :: post)) pre.length (pre.length + mid.length + 1)
      = pre ++ b :: (mid ++ a :: post) := by
  have h1 : (pre ++ a :: (mid ++ b :: post))[pre.length]? = some a := by
    rw [List.getElem?_append_right (le_refl _)]
    simp
  have h2 : (pre ++ a :: (mid ++ b :: post))[pre.length + mid.length + 1]? = some b := by
    rw [List.getElem?_append_right (by omega)]
    have : pre.length + mid.length + 1 - pre.length = mid.length + 1 := by omega
    rw [this, List.getElem?_cons_succ, List.getElem?_append_right (le_refl _)]
    simp
  unfold swap
  rw [h1, h2]
  simp only
  rw [List.set_append_right _ _ (by omega)]
  simp only [Nat.sub_self, List.set_cons_zero]
  rw [List.set_append_right _ _ (by omega)]
  have : pre.length + mid.length + 1 - pre.length = mid.length + 1 := by omega
  rw [this]
  simp only [List.set_cons_succ]
  rw [List.set_append_right _ _ (by omega)]
  simp

theorem reverseLoop_middle (fuel : Nat) :
    ∀ (pre m post : List String), m.length ≤ fuel →
      reverseLoop fuel pre.length (pre.length + m.length - 1) (pre ++ m ++ post)
        = pre ++ m.reverse ++ post := by
  induction fuel with
  | zero =>
    intro pre m post h
    have : m = [] := List.length_eq_zero.mp (by omega)
    subst this
    simp [reverseLoop]
  | succ fuel ih =>
    intro pre m post h
    cases m with
    | nil => simp [reverseLoop]
    | cons a t =>
      rcases List.eq_nil_or_concat t with ht | ⟨mid, b, ht⟩
      · subst ht
        simp [reverseLoop]
      · subst ht
        rw [List.concat_eq_append] at h ⊢
        have hlen : (a :: (mid ++ [b])).length = mid.length + 2 := by simp
        have hlt : pre.length < pre.length + (a :: (mid ++ [b])).length - 1 := by
          rw [hlen]; omega
        have hj : pre.length + (a :: (mid ++ [b])).length - 1 = pre.length + mid.length + 1 := by
          rw [hlen]; omega
        rw [reverseLoop, if_pos hlt, hj]
        have hs := swap_ends pre mid post a b
        have hx : pre ++ a :: (mid ++ [b]) ++ post = pre ++ a :: (mid ++ b :: post) := by simp
        rw [hx, hs]
        have h3 := ih (pre ++ [b]) mid (a :: post) (by rw [hlen] at h; omega)
        have h4 : (pre ++ [b]).length = pre.length + 1 := by simp
        have h5 : pre.length + 1 + mid.length - 1 = pre.length + mid.length + 1 - 1 := by
          omega
        rw [h4, h5] at h3
        have h6 : pre ++ [b] ++ mid ++ a :: post = pre ++ b :: (mid ++ a :: post) := by simp
        rw [h6] at h3
        rw [h3]
        simp

theorem crtPathSplitted_eq_reverse (crtPath : String) :
    crtPathSplitted crtPath = (Split crtPath '/').reverse := by
  have h := reverseLoop_middle (Split crtPath '/').length [] (Split crtPath '/') [] (le_refl _)
  simpa [crtPathSplitted] using h

/-! ## C1: alternative names -/

/-- C1: `generateAltNames` returns the lines `DNS.1 = n_1`, ..., `DNS.k = n_k`,
one per requested name, in request order and numbered from 1, joined by single
newlines with nothing before, between or after them: there are exactly as many
lines as names, line `i` (from 0) is `DNS.<i+1> = <name i>`, the empty list
gives the empty string, a list extended by one name gives the old result, a
newline when there was a line before, and the new line last, and the two names
of the example give its two lines. -/
theorem generateAltNames_lines (altNames : List String) :
    generateAltNames altNames
        = String.intercalate "\n"
            (altNames.enum.map (fun p => "DNS." ++ toString (p.1 + 1) ++ " = " ++ p.2))
      ∧ (altNames.enum.map (fun p => "DNS." ++ toString (p.1 + 1) ++ " = " ++ p.2)).length
          = altNames.length
      ∧ (∀ (i : Nat) (n : String), altNames[i]? = some n →
          (altNames.enum.map (fun p => "DNS." ++ toString (p.1 + 1) ++ " = " ++ p.2))[i]?
            = some ("DNS." ++ toString (i + 1) ++ " = " ++ n))
      ∧ generateAltNames [] = ""
      ∧ (∀ n : String, generateAltNames (altNames ++ [n])
          = (if altNames = [] then "" else generateAltNames altNames ++ "\n")
              ++ ("DNS." ++ toString (altNames.length + 1) ++ " = " ++ n))
      ∧ generateAltNames ["a.example.com", "b.example.com"]
          = "DNS.1 = a.example.com\nDNS.2 = b.example.com" := by
  have hgen : ∀ names : List String, generateAltNamesLoop 0 names []
      = names.enum.map (fun p => "DNS." ++ toString (p.1 + 1) ++ " = " ++ p.2) := by
    intro names
    rw [generateAltNamesLoop_eq]
    simp [List.enum]
  refine ⟨?_, by simp, ?_, by decide, ?_, by decide⟩
  · rw [generateAltNames, hgen, Join_eq_intercalate]
  · intro i n h
    simp [List.getElem?_map, List.enum, List.getElem?_enumFrom, h]
  · intro n
    unfold generateAltNames
    rw [hgen, hgen]
    cases altNames with
    | nil => simp [Join, List.enum, List.enumFrom]
    | cons a as =>
      simp only [List.enum, List.enumFrom_append, List.map_append, List.enumFrom_cons,
        List.map_cons, List.cons_append, Join, List.foldl_append, List.enumFrom_nil,
        List.map_nil, List.foldl_cons, List.foldl_nil]
      simp [String.append_assoc, Nat.add_comm 1 as.length]

/-! ## C10 and C8: the Linux branch -/

theorem statNotExist_fs (env : Env) (p : Path) (s : State) :
    (statNotExist env p s).2.fs = s.fs := rfl

theorem isNotExist_of_exists (env : Env) (p : Path) (fs : FS) (h : fs p ≠ none) :
    isNotExist env p fs = false := by
  cases h1 : fs p with
  | none => exact absurd h1 h
  | some n => simp [isNotExist, h1]

theorem isNotExist_of_missing (env : Env) (p : Path) (fs : FS) (h : fs p = none)
    (hs : env.statError p = false) : isNotExist env p fs = true := by
  simp [isNotExist, h, hs]

theorem isNotExist_absent (env : Env) (p : Path) (fs : FS) (h : isNotExist env p fs = true) :
    fs p = none := by
  simp only [isNotExist, Bool.and_eq_true, Option.isNone_iff_eq_none] at h
  exact h.1

theorem isNotExist_keeps (env : Env) (p : Path) (fs1 fs2 : FS)
    (hk : fs1 p ≠ none → fs2 p ≠ none) (h : isNotExist env p fs1 = false) :
    isNotExist env p fs2 = false := by
  cases hs : env.statError p with
  | true => simp [isNotExist, hs]
  | false =>
    have h1 : fs1 p ≠ none := by
      intro hn
      simp [isNotExist, hn, hs] at h
    exact isNotExist_of_exists env p fs2 (hk h1)

theorem caNameOf_reverse (pre : List String) (c3 c2 c1 c0 : String) :
    caNameOf (pre ++ [c3, c2, c1, c0]).reverse = some (c3 ++ "-" ++ c2 ++ "-" ++ c0) := by
  simp [caNameOf]

/-- C10: for a path that splits on "/" into at least four components, the
derivation of the CA name hits no index out of range (`trustCrtOnLinux` returns
instead of panicking), and when the components end in `c3, c2, c1, c0` the
name is `c3-c2-c0`, whatever `c1` and the components before `c3` are; the
name is what `trustCrtOnLinux` prints. -/
theorem trustCrtOnLinux_caName (env : Env) (crtPath : String) (s : State)
    (h : 4 ≤ (Split crtPath '/').length) :
    (∃ name, caNameOf (crtPathSplitted crtPath) = some name)
      ∧ (∃ err s1, trustCrtOnLinux env crtPath s = .returned err s1)
      ∧ ∀ (pre : List String) (c3 c2 c1 c0 : String),
          Split crtPath '/' = pre ++ [c3, c2, c1, c0] →
          caNameOf (crtPathSplitted crtPath) = some (c3 ++ "-" ++ c2 ++ "-" ++ c0)
            ∧ Event.print [c3 ++ "-" ++ c2 ++ "-" ++ c0]
                ∈ (trustCrtOnLinux env crtPath s).state.trace := by
  have hdec : ∃ (pre : List String) (c3 c2 c1 c0 : String),
      Split crtPath '/' = pre ++ [c3, c2, c1, c0] := by
    generalize Split crtPath '/' = xs at h
    refine ⟨xs.take (xs.length - 4), xs[xs.length - 4], xs[xs.length - 3],
      xs[xs.length - 2], xs[xs.length - 1], ?_⟩
    apply List.ext_getElem
    · simp; omega
    · intro i h1 h2
      by_cases hi : i < xs.length - 4
      · rw [List.getElem_append_left (by simp; omega)]
        simp
      · rw [List.getElem_append_right (by simp; omega)]
        have hl : (List.take (xs.length - 4) xs).length = xs.length - 4 := by simp
        simp only [hl]
        have hcases : i - (xs.length - 4) = 0 ∨ i - (xs.length - 4) = 1
            ∨ i - (xs.length - 4) = 2 ∨ i - (xs.length - 4) = 3 := by omega
        rcases hcases with h0 | h0 | h0 | h0
        · simp only [h0]
          have : i = xs.length - 4 := by omega
          subst this
          simp
        · simp only [h0]
          have : i = xs.length - 3 := by omega
          subst this
          simp
        · simp only [h0]
          have : i = xs.length - 2 := by omega
          subst this
          simp
        · simp only [h0]
          have : i = xs.length - 1 := by omega
          subst this
          simp
  have key : ∀ (pre : List String) (c3 c2 c1 c0 : String),
      Split crtPath '/' = pre ++ [c3, c2, c1, c0] →
      caNameOf (crtPathSplitted crtPath) = some (c3 ++ "-" ++ c2 ++ "-" ++ c0) := by
    intro pre c3 c2 c1 c0 hs
    rw [crtPathSplitted_eq_reverse, hs, caNameOf_reverse]
  obtain ⟨pre, c3, c2, c1, c0, hs⟩ := hdec
  refine ⟨⟨_, key pre c3 c2 c1 c0 hs⟩, ?_, ?_⟩
  · simp only [trustCrtOnLinux, key pre c3 c2 c1 c0 hs]
    split <;> exact ⟨_, _, rfl⟩
  · intro pre c3 c2 c1 c0 hs
    refine ⟨key pre c3 c2 c1 c0 hs, ?_⟩
    simp only [trustCrtOnLinux, key pre c3 c2 c1 c0 hs]
    split <;>
      simp [LinuxResult.state, Run, selectCaPath, statNotExist, State.emit] <;>
      split_ifs <;> simp

/-- Witness of C10 on the path of a root certificate in crtforge's layout. -/
theorem trustCrtOnLinux_caName_witness :
    4 ≤ (Split rootCaPath '/').length
      ∧ caNameOf (crtPathSplitted rootCaPath) = some "crtforge-default-rootCA.crt" :=
  ⟨by decide,
   ((trustCrtOnLinux_caName linuxEnv rootCaPath (State.init emptyFS) (by decide)).2.2
      ["", "root", ".config"] "crtforge" "default" "rootCA" "rootCA.crt" (by decide)).1⟩

theorem selectCaPath_eq (env : Env) (caName : String) (s : State) :
    (selectCaPath env caName s).1
      = anchorDir (fun p => !isNotExist env p s.fs) ++ caName := by
  simp only [selectCaPath, statNotExist, State.emit, anchorDir, markerDirs, List.find?]
  cases h1 : isNotExist env "/etc/debian_version" s.fs <;>
    cases h2 : isNotExist env "/etc/arch-release" s.fs <;>
    cases h3 : isNotExist env "/etc/redhat-release" s.fs <;>
    cases h4 : isNotExist env "/etc/fedora-release" s.fs <;>
    simp

theorem isNotExist_eq_isNone (env : Env) (p : Path) (fs : FS) (h : env.statError p = false) :
    isNotExist env p fs = (fs p).isNone := by
  simp [isNotExist, h]

/-- C8: the path `trustCrtOnLinux` copies the certificate to is the CA name in
the directory of the first present marker file in the order
`/etc/debian_version`, `/etc/arch-release`, `/etc/redhat-release`,
`/etc/fedora-release`, and in the Debian/Ubuntu directory when none is
present, a marker being present when `os.Stat` does not report it as not
existing, which without stat errors is when the file exists; with only the
Arch marker it is the Arch directory, with only a RedHat or a Fedora marker
the pki directory; and that path is the destination of the `sudo cp` command
the function runs. -/
theorem selectCaPath_first_marker (env : Env) (crtPath caName : String) (s : State) :
    (selectCaPath env caName s).1
        = anchorDir (fun p => !isNotExist env p s.fs) ++ caName
      ∧ ((∀ p, env.statError p = false) →
          (selectCaPath env caName s).1 = anchorDir (fun p => (s.fs p).isSome) ++ caName)
      ∧ (s.fs "/etc/debian_version" ≠ none →
          (selectCaPath env caName s).1 = "/usr/local/share/ca-certificates/" ++ caName)
      ∧ (env.statError "/etc/debian_version" = false →
          s.fs "/etc/debian_version" = none → s.fs "/etc/arch-release" ≠ none →
          (selectCaPath env caName s).1
            = "/etc/ca-certificates/trust-source/anchors/" ++ caName)
      ∧ (env.statError "/etc/debian_version" = false →
          env.statError "/etc/arch-release" = false →
          s.fs "/etc/debian_version" = none → s.fs "/etc/arch-release" = none →
          (s.fs "/etc/redhat-release" ≠ none ∨ s.fs "/etc/fedora-release" ≠ none) →
          (selectCaPath env caName s).1 = "/etc/pki/ca-trust/source/anchors/" ++ caName)
      ∧ ((∀ p, env.statError p = false) →
          s.fs "/etc/debian_version" = none → s.fs "/etc/arch-release" = none →
          s.fs "/etc/redhat-release" = none → s.fs "/etc/fedora-release" = none →
          (selectCaPath env caName s).1 = "/usr/local/share/ca-certificates/" ++ caName)
      ∧ (caNameOf (crtPathSplitted crtPath) = some caName →
          Event.exec { args := ["sudo", "cp", crtPath,
              anchorDir (fun p => !isNotExist env p s.fs) ++ caName], dir := none }
            ∈ (trustCrtOnLinux env crtPath s).state.trace) := by
  refine ⟨selectCaPath_eq env caName s, ?_, ?_, ?_, ?_, ?_, ?_⟩
  · intro hs
    rw [selectCaPath_eq]
    congr 2
    funext p
    simp [isNotExist_eq_isNone env p s.fs (hs p)]
  · intro h1
    simp [selectCaPath, statNotExist, State.emit, isNotExist_of_exists env _ s.fs h1]
  · intro hs1 h1 h2
    simp [selectCaPath, statNotExist, State.emit, isNotExist_of_exists env _ s.fs h2,
      isNotExist_of_missing env _ s.fs h1 hs1]
  · intro hs1 hs2 h1 h2 h3
    rcases h3 with h3 | h3
    · simp [selectCaPath, statNotExist, State.emit, isNotExist_of_exists env _ s.fs h3,
        isNotExist_of_missing env _ s.fs h1 hs1, isNotExist_of_missing env _ s.fs h2 hs2]
    · cases h4 : isNotExist env "/etc/redhat-release" s.fs <;>
        simp [selectCaPath, statNotExist, State.emit, isNotExist_of_exists env _ s.fs h3,
          isNotExist_of_missing env _ s.fs h1 hs1, isNotExist_of_missing env _ s.fs h2 hs2,
          h4]
  · intro hs h1 h2 h3 h4
    simp [selectCaPath, statNotExist, State.emit, isNotExist_of_missing env _ s.fs h1 (hs _),
      isNotExist_of_missing env _ s.fs h2 (hs _), isNotExist_of_missing env _ s.fs h3 (hs _),
      isNotExist_of_missing env _ s.fs h4 (hs _)]
  · intro hn
    have hp := selectCaPath_eq env caName
      ((s.emit (.print [crtPath, "is being trusted on Linux..."])).emit
        (.print [sprintSlice (crtPathSplitted crtPath)]) |>.emit (.print [caName]))
    simp only [State.emit] at hp
    simp only [trustCrtOnLinux, hn, State.emit, Run, hp]
    split <;> simp [LinuxResult.state]

/-- Witness of C8: with only the Arch marker present, the root certificate of
the default CA is copied into the Arch directory. -/
theorem selectCaPath_first_marker_witness :
    (selectCaPath linuxEnv "crtforge-default-rootCA.crt" (State.init archFS)).1
      = "/etc/ca-certificates/trust-source/anchors/crtforge-default-rootCA.crt" :=
  (selectCaPath_first_marker linuxEnv rootCaPath "crtforge-default-rootCA.crt"
    (State.init archFS)).2.2.2.1 rfl (by decide) (by decide)

/-! ## C7, C6, C9: `TrustCrt` -/

theorem selectCaPath_trace (env : Env) (caName : String) (s : State) :
    ∃ rest, (selectCaPath env caName s).2.trace = s.trace ++ rest
      ∧ (selectCaPath env caName s).2.fs = s.fs := by
  simp only [selectCaPath, statNotExist, State.emit]
  split_ifs <;> simp

theorem trustCrtOnLinux_trace (env : Env) (crtPath : String) (s : State) :
    ∃ rest, (trustCrtOnLinux env crtPath s).state.trace
      = s.trace ++ Event.print [crtPath, "is being trusted on Linux..."] :: rest := by
  simp only [trustCrtOnLinux]
  split
  · exact ⟨[Event.print [sprintSlice (crtPathSplitted crtPath)]], by
      simp [LinuxResult.state, State.emit]⟩
  · rename_i caName _
    obtain ⟨rest, h, _⟩ := selectCaPath_trace env caName
      (((s.emit (.print [crtPath, "is being trusted on Linux..."])).emit
        (.print [sprintSlice (crtPathSplitted crtPath)])).emit (.print [caName]))
    simp only [State.emit, List.append_assoc, List.cons_append, List.nil_append] at h
    split <;>
      · simp only [LinuxResult.state, Run, State.emit, List.append_assoc, List.cons_append,
          List.nil_append, h]
        exact ⟨_, rfl⟩

theorem trustCrtOnMacos_trace (env : Env) (crtPath : String) (s : State) :
    ∃ rest, (trustCrtOnMacos env crtPath s).2.trace
      = s.trace ++ Event.print [crtPath, "is being trusted on MacOS..."] :: rest := by
  simp only [trustCrtOnMacos, Run, State.emit]
  split_ifs <;> simp

theorem getElem?_append_cons_succ (xs rest : List Event) (a b : Event) :
    (xs ++ [a] ++ b :: rest)[xs.length + 1]? = some b := by
  rw [List.getElem?_append_right (by simp)]
  simp

/-- C7: `TrustCrt` takes the Linux branch exactly when the platform identifier
is "linux", the macOS branch exactly when it is "darwin", and the unsupported
branch exactly when it is neither, so never two of them; the outcome is that
of the branch, and in the unsupported case the call returns with the file
system unchanged after printing the platform line and the "Unknown OS" line,
which is all it does: no command is run and the process is not terminated. -/
theorem TrustCrt_branch (env : Env) (crtPath : String) (s : State) :
    ((TrustCrt env crtPath s).branchEvent s
          = some (.print [crtPath, "is being trusted on Linux..."]) ↔ env.goos = "linux")
      ∧ ((TrustCrt env crtPath s).branchEvent s
          = some (.print [crtPath, "is being trusted on MacOS..."]) ↔ env.goos = "darwin")
      ∧ ((TrustCrt env crtPath s).branchEvent s
          = some (.print ["Unknown OS. Can not trust the cert."])
            ↔ (env.goos ≠ "linux" ∧ env.goos ≠ "darwin"))
      ∧ (env.goos = "linux" → TrustCrt env crtPath s
          = match trustCrtOnLinux env crtPath (s.emit (.print ["Os:", "linux"])) with
            | .returned _ s2 => .returned s2
            | .panic s2 => .panicked s2)
      ∧ (env.goos = "darwin" → TrustCrt env crtPath s
          = match trustCrtOnMacos env crtPath (s.emit (.print ["Os:", "darwin"])) with
            | (some _, s2) => .fatal "Error while trusting cert: " s2
            | (none, s2) => .returned s2)
      ∧ (env.goos ≠ "linux" → env.goos ≠ "darwin" → TrustCrt env crtPath s
          = .returned { fs := s.fs, trace := s.trace ++ [.print ["Os:", env.goos],
              .print ["Unknown OS. Can not trust the cert."]] }) := by
  have hlin : env.goos = "linux" → (TrustCrt env crtPath s).branchEvent s
      = some (.print [crtPath, "is being trusted on Linux..."]) := by
    intro h
    obtain ⟨rest, hr⟩ := trustCrtOnLinux_trace env crtPath (s.emit (.print ["Os:", env.goos]))
    simp only [TrustOutcome.branchEvent, TrustCrt, isLinux, detectOs, h, beq_self_eq_true,
      if_true]
    rw [h] at hr
    revert hr
    cases trustCrtOnLinux env crtPath (s.emit (.print ["Os:", "linux"])) <;>
      · intro hr
        simp only [LinuxResult.state, State.emit] at hr
        simp only [TrustOutcome.state, hr]
        exact getElem?_append_cons_succ _ _ _ _
  have hmac : env.goos = "darwin" → (TrustCrt env crtPath s).branchEvent s
      = some (.print [crtPath, "is being trusted on MacOS..."]) := by
    intro h
    obtain ⟨rest, hr⟩ := trustCrtOnMacos_trace env crtPath (s.emit (.print ["Os:", env.goos]))
    have hne : ("darwin" == "linux") = false := by decide
    simp only [TrustOutcome.branchEvent, TrustCrt, isLinux, isMacos, detectOs, h, hne,
      beq_self_eq_true, if_true, Bool.false_eq_true, if_false]
    rw [h] at hr
    revert hr
    rcases trustCrtOnMacos env crtPath (s.emit (.print ["Os:", "darwin"])) with ⟨e, s2⟩
    cases e <;>
      · intro hr
        simp only [State.emit] at hr
        simp only [TrustOutcome.state, hr]
        exact getElem?_append_cons_succ _ _ _ _
  have hunk : env.goos ≠ "linux" → env.goos ≠ "darwin" → TrustCrt env crtPath s
      = .returned { fs := s.fs, trace := s.trace ++ [.print ["Os:", env.goos],
          .print ["Unknown OS. Can not trust the cert."]] } := by
    intro h1 h2
    simp [TrustCrt, isLinux, isMacos, detectOs, h1, h2, State.emit]
  have hunk2 : env.goos ≠ "linux" → env.goos ≠ "darwin" →
      (TrustCrt env crtPath s).branchEvent s
        = some (.print ["Unknown OS. Can not trust the cert."]) := by
    intro h1 h2
    rw [hunk h1 h2]
    simp only [TrustOutcome.branchEvent, TrustOutcome.state]
    rw [List.getElem?_append_right (by simp)]
    simp
  refine ⟨⟨?_, hlin⟩, ⟨?_, hmac⟩, ⟨?_, fun h => hunk2 h.1 h.2⟩, ?_, ?_, hunk⟩
  · intro h
    by_contra hne
    by_cases hd : env.goos = "darwin"
    · rw [hmac hd] at h
      simp at h
    · rw [hunk2 hne hd] at h
      simp at h
  · intro h
    by_contra hne
    by_cases hl : env.goos = "linux"
    · rw [hlin hl] at h
      simp at h
    · rw [hunk2 hl hne] at h
      simp at h
  · intro h
    constructor
    · intro hl
      rw [hlin hl] at h
      simp at h
    · intro hd
      rw [hmac hd] at h
      simp at h
  · intro h
    simp [TrustCrt, isLinux, detectOs, h]
  · intro h
    have hne : ("darwin" == "linux") = false := by decide
    simp only [TrustCrt, isLinux, isMacos, detectOs, h, hne, beq_self_eq_true, if_true,
      Bool.false_eq_true, if_false]

/-- Witness of C7 on a platform that is neither Linux nor macOS: the call
returns after its two lines of output. -/
theorem TrustCrt_branch_witness :
    TrustCrt { linuxEnv with goos := "windows" } rootCaPath (State.init emptyFS)
      = .returned { fs := emptyFS, trace := [.print ["Os:", "windows"],
          .print ["Unknown OS. Can not trust the cert."]] } :=
  (TrustCrt_branch { linuxEnv with goos := "windows" } rootCaPath
    (State.init emptyFS)).2.2.2.2.2 (by decide) (by decide)

/-- C6 (the code at the failing input): on a macOS host where the certificate
is not yet trusted, the authorization grant succeeds and `add-trusted-cert`
fails, `trustCrtOnMacos` returns the add error after running exactly the
verification, the grant and the add command: the revoke command
`security authorizationdb remove com.apple.trust-settings.admin` is not
attempted, so the grant stays in place. -/
theorem trustCrtOnMacos_add_failure_skips_revoke (crtPath : String) (fs : FS) :
    trustCrtOnMacos addFailsEnv crtPath (State.init fs)
        = (some "failed to add cert to keychain: ",
            { fs := fs,
              trace := [.print [crtPath, "is being trusted on MacOS..."],
                .exec (isCrtTrustedCommand crtPath),
                .print [crtPath, "will be trusted on keychain"],
                .exec allowCommand,
                .exec (trustCrtCommand crtPath),
                .print ["Command output:", "The authorization was denied."]] })
      ∧ (trustCrtOnMacos addFailsEnv crtPath (State.init fs)).2.trace.count
          (.exec disallowCommand) = 0 := by
  have h : trustCrtOnMacos addFailsEnv crtPath (State.init fs)
      = (some "failed to add cert to keychain: ",
          { fs := fs,
            trace := [.print [crtPath, "is being trusted on MacOS..."],
              .exec (isCrtTrustedCommand crtPath),
              .print [crtPath, "will be trusted on keychain"],
              .exec allowCommand,
              .exec (trustCrtCommand crtPath),
              .print ["Command output:", "The authorization was denied."]] }) := by
    simp [trustCrtOnMacos, Run, State.emit, State.init, addFailsEnv, addFailsExec,
      isCrtTrustedCommand, allowCommand, trustCrtCommand]
  refine ⟨h, ?_⟩
  rw [h]
  simp [List.count_cons, isCrtTrustedCommand, allowCommand, trustCrtCommand, disallowCommand]

/-- C9 (the code on the Linux branch): whatever the copy command does,
`TrustCrt` ends the same way and performs and prints the same things, so a
failed copy cannot be told from a successful one; at the root certificate
path, with a failing copy, `trustCrtOnLinux` returns the error
"error while adding cert to system" and `TrustCrt` returns normally. -/
theorem TrustCrt_linux_drops_copy_error (exec1 exec2 : Cmd → FS → ExecResult)
    (crtPath : String) (s : State) :
    (TrustCrt (linuxWith exec1) crtPath s).ending
        = (TrustCrt (linuxWith exec2) crtPath s).ending
      ∧ (TrustCrt (linuxWith exec1) crtPath s).state.trace
        = (TrustCrt (linuxWith exec2) crtPath s).state.trace
      ∧ (trustCrtOnLinux (linuxWith failingExec) rootCaPath (State.init emptyFS)).err
        = some "error while adding cert to system"
      ∧ (TrustCrt (linuxWith failingExec) rootCaPath (State.init emptyFS)).ending
        = .returned
      ∧ (TrustCrt (linuxWith toolExec) rootCaPath (State.init emptyFS)).ending
        = .returned := by
  refine ⟨?_, ?_, by decide, by decide, by decide⟩
  · simp only [TrustCrt, isLinux, detectOs, linuxWith, linuxEnv, beq_self_eq_true, if_true,
      trustCrtOnLinux]
    cases caNameOf (crtPathSplitted crtPath)
    · rfl
    · simp only []
      split_ifs <;> rfl
  · simp only [TrustCrt, isLinux, detectOs, linuxWith, linuxEnv, beq_self_eq_true, if_true,
      trustCrtOnLinux]
    cases caNameOf (crtPathSplitted crtPath)
    · rfl
    · simp only []
      split_ifs <;> rfl

/-! ## The file system and the chain step -/

theorem Outcome.eq_done_of_isFatal (o : Outcome) (h : o.isFatal = false) :
    o = .done o.state := by
  cases o with
  | done s => rfl
  | fatal msg s => simp [Outcome.isFatal] at h

theorem ReadFile_snd (env : Env) (p : Path) (s : State) :
    (ReadFile env p s).2 = s.emit (.readFile p) := by
  simp only [ReadFile]
  split_ifs
  · rfl
  · split <;> rfl

theorem ReadFile_fst_congr (env : Env) (p : Path) (s t : State) (h : s.fs = t.fs) :
    (ReadFile env p s).1 = (ReadFile env p t).1 := by
  simp only [ReadFile, h]
  split_ifs
  · rfl
  · split <;> rfl

theorem FS.set_same (fs : FS) (p : Path) (n : Node) : (fs.set p n) p = some n := by
  simp [FS.set]

theorem FS.set_set (fs : FS) (p : Path) (n m : Node) : (fs.set p n).set p m = fs.set p m := by
  funext q
  simp only [FS.set]
  split_ifs <;> rfl

theorem FS.set_ne_none (fs : FS) (p q : Path) (n : Node) (h : fs q ≠ none) :
    (fs.set p n) q ≠ none := by
  simp only [FS.set]
  split_ifs
  · simp
  · exact h

theorem writeFullchain_ok (env : Env) (opts : CreateAppCrtOptions) (R I L : Bytes) (s : State)
    (hfc : s.fs (appFullchainCrtFile opts) = none)
    (hstat : env.statError (appFullchainCrtFile opts) = false)
    (hcreate : ∀ fs, env.fault (.create (appFullchainCrtFile opts)) fs = false)
    (hopen : ∀ fs, env.fault (.openFile (appFullchainCrtFile opts)) fs = false)
    (hwrite : ∀ fs, env.fault (.write (appFullchainCrtFile opts)) fs = false) :
    writeFullchain env opts R I L s
      = .done { fs := s.fs.set (appFullchainCrtFile opts) (.file (L ++ I ++ R)),
                trace := s.trace ++ [.stat (appFullchainCrtFile opts),
                  .log .debug "App fullchain crt being created.",
                  .create (appFullchainCrtFile opts),
                  .openFile (appFullchainCrtFile opts),
                  .write (appFullchainCrtFile opts) L,
                  .write (appFullchainCrtFile opts) I,
                  .write (appFullchainCrtFile opts) R,
                  .log .debug
                    ("App Fullchain crt generated at " ++ applicationCrtFile opts)] } := by
  simp [writeFullchain, statNotExist, isNotExist, State.emit, Create, OpenFile, Write, hfc,
    hstat, hcreate, hopen, hwrite, FS.set_same, FS.set_set]

theorem stepSummary_fs (env : Env) (opts : CreateAppCrtOptions) (s : State) :
    (stepSummary env opts s).state.fs = s.fs := by
  simp only [stepSummary, State.emit]
  split_ifs <;> rfl

theorem andThen_stepSummary_fs (env : Env) (opts : CreateAppCrtOptions) (o : Outcome) :
    (o.andThen (stepSummary env opts)).state.fs = o.state.fs := by
  cases o with
  | done s => exact stepSummary_fs env opts s
  | fatal msg s => rfl

/-! ## The paths of the artifacts -/

theorem append_ne_of_ext (x y e1 e2 : String) (hlen : e1.length = e2.length) (hne : e1 ≠ e2) :
    x ++ e1 ≠ y ++ e2 := by
  intro h
  have hd := congrArg String.data h
  simp only [String.data_append] at hd
  have := (List.append_inj' hd (show e1.data.length = e2.data.length from hlen)).2
  exact hne (String.ext this)

theorem ne_append_of_pos (x e : String) (h : 0 < e.length) : x ≠ x ++ e := by
  intro heq
  have := congrArg String.length heq
  simp only [String.length_append] at this
  omega

theorem fullchain_split (d : String) : d ++ "/fullchain.crt" = (d ++ "/fullchain") ++ ".crt" := by
  rw [String.append_assoc]
  rfl

theorem artifact_ne (opts : CreateAppCrtOptions) (j m : Nat) (hj : 1 ≤ j) (hjm : j < m)
    (hm : m ≤ 7) (h56 : ¬ (j = 5 ∧ m = 6)) : artifact opts j ≠ artifact opts m := by
  have hdir : ∀ e : String, 0 < e.length →
      appCrtDir opts ≠ appCrtDir opts ++ "/" ++ opts.AppName ++ e := by
    intro e he
    rw [String.append_assoc, String.append_assoc]
    apply ne_append_of_pos
    simp only [String.length_append]
    omega
  have hdirfc : appCrtDir opts ≠ appCrtDir opts ++ "/fullchain.crt" :=
    ne_append_of_pos _ _ (by decide)
  have hext : ∀ e1 e2 : String, e1.length = e2.length → e1 ≠ e2 →
      appCrtDir opts ++ "/" ++ opts.AppName ++ e1 ≠ appCrtDir opts ++ "/" ++ opts.AppName ++ e2 :=
    fun e1 e2 hl hne => append_ne_of_ext _ _ e1 e2 hl hne
  have hfc : ∀ e : String, e.length = 4 → e ≠ ".crt" →
      appCrtDir opts ++ "/" ++ opts.AppName ++ e ≠ appCrtDir opts ++ "/fullchain.crt" := by
    intro e hl hne
    rw [fullchain_split]
    exact append_ne_of_ext _ _ e ".crt" (by rw [hl]; rfl) hne
  have hfc2 : ∀ e : String, e.length = 4 → e ≠ ".crt" →
      appCrtDir opts ++ "/fullchain.crt" ≠ appCrtDir opts ++ "/" ++ opts.AppName ++ e :=
    fun e hl hne => (hfc e hl hne).symm
  have cases : (j = 1 ∨ j = 2 ∨ j = 3 ∨ j = 4 ∨ j = 5 ∨ j = 6) := by omega
  have casem : (m = 2 ∨ m = 3 ∨ m = 4 ∨ m = 5 ∨ m = 6 ∨ m = 7) := by omega
  rcases cases with rfl | rfl | rfl | rfl | rfl | rfl <;>
    rcases casem with rfl | rfl | rfl | rfl | rfl | rfl <;>
    first
    | omega
    | exact hdir _ (by decide)
    | exact hdirfc
    | exact hext _ _ (by decide) (by decide)
    | exact hfc _ (by decide) (by decide)
    | exact hfc2 _ (by decide) (by decide)

/-! ## The steps of the pipeline, one by one -/

theorem Ext.mono {P Q : Event → Prop} {s : State} {o : Outcome} (h : Ext P s o)
    (hPQ : ∀ e, P e → Q e) : Ext Q s o := by
  obtain ⟨new, h1, h2⟩ := h
  exact ⟨new, h1, fun e he => hPQ e (h2 e he)⟩

theorem Ext.seq {P : Event → Prop} {s : State} {o : Outcome} {f : State → Outcome}
    (h : Ext P s o) (hf : ∀ t, Ext P t (f t)) : Ext P s (o.andThen f) := by
  cases o with
  | fatal msg t => exact h
  | done t =>
    obtain ⟨new, h1, h2⟩ := h
    obtain ⟨new2, h3, h4⟩ := hf t
    refine ⟨new ++ new2, ?_, ?_⟩
    · simp only [Outcome.andThen, h3]
      simp only [Outcome.state] at h1
      rw [h1, List.append_assoc]
    · intro e he
      rcases List.mem_append.mp he with h | h
      · exact h2 e h
      · exact h4 e h

theorem stepAppDir_skip (env : Env) (opts : CreateAppCrtOptions) (s : State)
    (h : isNotExist env (appCrtDir opts) s.fs = false) :
    stepAppDir env opts s = .done { fs := s.fs, trace := s.trace ++ skipEvents opts 1 } := by
  simp [stepAppDir, statNotExist, State.emit, h, skipEvents]

theorem stepAppKey_skip (env : Env) (opts : CreateAppCrtOptions) (s : State)
    (h : isNotExist env (applicationKeyFile opts) s.fs = false) :
    stepAppKey env opts s = .done { fs := s.fs, trace := s.trace ++ skipEvents opts 2 } := by
  simp [stepAppKey, statNotExist, State.emit, h, skipEvents]

theorem stepAppCnf_skip (env : Env) (opts : CreateAppCrtOptions) (s : State)
    (h : isNotExist env (applicationCnfFile opts) s.fs = false) :
    stepAppCnf env opts s = .done { fs := s.fs, trace := s.trace ++ skipEvents opts 3 } := by
  simp [stepAppCnf, statNotExist, State.emit, h, skipEvents]

theorem stepAppCsr_skip (env : Env) (opts : CreateAppCrtOptions) (s : State)
    (h : isNotExist env (applicationCsrFile opts) s.fs = false) :
    stepAppCsr env opts s = .done { fs := s.fs, trace := s.trace ++ skipEvents opts 4 } := by
  simp [stepAppCsr, statNotExist, State.emit, h, skipEvents]

theorem stepAppCrt_skip (env : Env) (opts : CreateAppCrtOptions) (s : State)
    (h : isNotExist env (applicationCrtFile opts) s.fs = false) :
    stepAppCrt env opts s = .done { fs := s.fs, trace := s.trace ++ skipEvents opts 5 } := by
  simp [stepAppCrt, statNotExist, State.emit, h, skipEvents]

theorem outFile_key (opts : CreateAppCrtOptions) :
    (createAppKeyCmd opts).outFile = some (applicationKeyFile opts) := rfl

theorem outFile_csr (opts : CreateAppCrtOptions) :
    (createAppCsrCmd opts).outFile = some (applicationCsrFile opts) := rfl

theorem outFile_crt (opts : CreateAppCrtOptions) :
    (createAppCrtCmd opts).outFile = some (applicationCrtFile opts) := rfl

theorem outFile_pfx (opts : CreateAppCrtOptions) :
    (createAppPfxCmd opts).outFile = some (applicationPfxFile opts) := rfl

theorem stepAppDir_ext (env : Env) (opts : CreateAppCrtOptions) (s : State) :
    Ext (fun e => e.target = none ∨ e.target = some (artifact opts 1)) s
      (stepAppDir env opts s) := by
  simp only [stepAppDir, statNotExist, State.emit, Mkdir]
  split_ifs <;>
    · simp only [Ext, Outcome.state, List.append_assoc]
      refine ⟨_, rfl, ?_⟩
      simp [Event.target, artifact]

theorem stepAppKey_ext (env : Env) (opts : CreateAppCrtOptions) (s : State) :
    Ext (fun e => e.target = none ∨ e.target = some (artifact opts 2)) s
      (stepAppKey env opts s) := by
  simp only [stepAppKey, statNotExist, State.emit, Run]
  split_ifs <;>
    · simp only [Ext, Outcome.state, List.append_assoc]
      refine ⟨_, rfl, ?_⟩
      simp [Event.target, artifact, outFile_key]

theorem stepAppCnf_ext (env : Env) (opts : CreateAppCrtOptions) (s : State) :
    Ext (fun e => e.target = none ∨ e.target = some (artifact opts 3)) s
      (stepAppCnf env opts s) := by
  simp only [stepAppCnf, statNotExist, State.emit, WriteFile]
  cases prepareAppCnf env opts.AppName opts.CommonName opts.AltNames <;>
    simp only [] <;> split_ifs <;>
    · simp only [Ext, Outcome.state, List.append_assoc]
      refine ⟨_, rfl, ?_⟩
      simp [Event.target, artifact]

theorem stepAppCsr_ext (env : Env) (opts : CreateAppCrtOptions) (s : State) :
    Ext (fun e => e.target = none ∨ e.target = some (artifact opts 4)) s
      (stepAppCsr env opts s) := by
  simp only [stepAppCsr, statNotExist, State.emit, Run]
  split_ifs <;>
    · simp only [Ext, Outcome.state, List.append_assoc]
      refine ⟨_, rfl, ?_⟩
      simp [Event.target, artifact, outFile_csr]

theorem stepAppCrt_ext (env : Env) (opts : CreateAppCrtOptions) (s : State) :
    Ext (fun e => e.target = none ∨ e.target = some (artifact opts 5)) s
      (stepAppCrt env opts s) := by
  simp only [stepAppCrt, statNotExist, State.emit, Run]
  split_ifs <;>
    · simp only [Ext, Outcome.state, List.append_assoc]
      refine ⟨_, rfl, ?_⟩
      simp [Event.target, artifact, outFile_crt]

theorem Mkdir_trace (env : Env) (p : Path) (s : State) :
    (Mkdir env p s).2.trace = s.trace ++ [.mkdir p] := by
  simp only [Mkdir, State.emit]
  split_ifs <;> rfl

theorem WriteFile_trace (env : Env) (p : Path) (c : Bytes) (s : State) :
    (WriteFile env p c s).2.trace = s.trace ++ [.writeFile p c] := by
  simp only [WriteFile, State.emit]
  split_ifs <;> rfl

theorem Create_trace (env : Env) (p : Path) (s : State) :
    (Create env p s).2.trace = s.trace ++ [.create p] := by
  simp only [Create, State.emit]
  split_ifs <;> rfl

theorem OpenFile_trace (env : Env) (p : Path) (s : State) :
    (OpenFile env p s).2.trace = s.trace ++ [.openFile p] := by
  simp only [OpenFile, State.emit]
  split_ifs
  · rfl
  · split <;> rfl

theorem Write_trace (env : Env) (p : Path) (c : Bytes) (s : State) :
    (Write env p c s).2.trace = s.trace ++ [.write p c] := by
  simp only [Write, State.emit]
  split_ifs
  · rfl
  · split <;> rfl

theorem Run_trace (env : Env) (c : Cmd) (s : State) :
    (Run env c s).2.trace = s.trace ++ [.exec c] := rfl

theorem writeFullchain_ext (env : Env) (opts : CreateAppCrtOptions) (R I L : Bytes)
    (s : State) :
    Ext (fun e => e.target = none ∨ e.target = some (artifact opts 6)) s
      (writeFullchain env opts R I L s) := by
  simp only [writeFullchain, statNotExist]
  split_ifs <;>
    · simp only [Ext, Outcome.state, State.emit, Create_trace, OpenFile_trace, Write_trace,
        List.append_assoc]
      refine ⟨_, rfl, ?_⟩
      simp [Event.target, artifact]

theorem stepFullchain_ext (env : Env) (opts : CreateAppCrtOptions) (s : State) :
    Ext (fun e => e.target = none ∨ e.target = some (artifact opts 6)) s
      (stepFullchain env opts s) := by
  simp only [stepFullchain, ReadFile_snd]
  split
  · exact ⟨[.readFile opts.RootCACrt], rfl, by simp [Event.target]⟩
  · split
    · exact ⟨[.readFile opts.RootCACrt, .readFile opts.IntermediateCACrt],
        by simp [Outcome.state, State.emit], by simp [Event.target]⟩
    · split
      · exact ⟨[.readFile opts.RootCACrt, .readFile opts.IntermediateCACrt,
          .readFile (applicationCrtFile opts)],
          by simp [Outcome.state, State.emit], by simp [Event.target]⟩
      · rename_i _ R _ _ I _ _ L _
        obtain ⟨new, h1, h2⟩ := writeFullchain_ext env opts R I L
          (((s.emit (.readFile opts.RootCACrt)).emit (.readFile opts.IntermediateCACrt)).emit
            (.readFile (applicationCrtFile opts)))
        refine ⟨[.readFile opts.RootCACrt, .readFile opts.IntermediateCACrt,
          .readFile (applicationCrtFile opts)] ++ new, ?_, ?_⟩
        · rw [h1]
          simp [State.emit]
        · intro e he
          rcases List.mem_append.mp he with h | h
          · simp at h
            rcases h with rfl | rfl | rfl <;> simp [Event.target]
          · exact h2 e h

theorem stepPfx_ext (env : Env) (opts : CreateAppCrtOptions) (s : State) :
    Ext (fun e => e.target = none ∨ e.target = some (artifact opts 7)) s
      (stepPfx env opts s) := by
  simp only [stepPfx, statNotExist, State.emit, Run]
  split_ifs <;>
    · simp only [Ext, Outcome.state, List.append_assoc]
      refine ⟨_, rfl, ?_⟩
      simp [Event.target, artifact, outFile_pfx]

theorem stepSummary_ext (env : Env) (opts : CreateAppCrtOptions) (s : State) :
    Ext (fun e => e.readOnly = true ∧ e.target = none) s (stepSummary env opts s) := by
  simp only [stepSummary, State.emit]
  split_ifs <;>
    · simp only [Ext, Outcome.state, List.append_assoc]
      refine ⟨_, rfl, ?_⟩
      simp [Event.target, Event.readOnly]

/-! ## Resuming the pipeline -/

theorem After.single {P : Event → Prop} (o : Outcome) {f : State → Outcome}
    (hf : ∀ t, Ext P t (f t)) : After P o (o.andThen f) := by
  cases o with
  | fatal msg t => exact ⟨⟨[], by simp [Outcome.andThen], by simp⟩, fun _ _ _ => rfl⟩
  | done t =>
    refine ⟨?_, fun msg s h => by cases h⟩
    obtain ⟨new, h1, h2⟩ := hf t
    exact ⟨new, h1, h2⟩

theorem After.trans {P : Event → Prop} {o1 o2 o3 : Outcome} (h12 : After P o1 o2)
    (h23 : After P o2 o3) : After P o1 o3 := by
  obtain ⟨⟨n1, e1, p1⟩, f1⟩ := h12
  obtain ⟨⟨n2, e2, p2⟩, f2⟩ := h23
  refine ⟨⟨n1 ++ n2, by rw [e2, e1, List.append_assoc], ?_⟩, ?_⟩
  · intro e he
    rcases List.mem_append.mp he with h | h
    · exact p1 e h
    · exact p2 e h
  · intro msg s h
    have h2 := f1 msg s h
    rw [f2 msg s (h2.trans h), h2]

theorem Ext.continued {P : Event → Prop} {s : State} {o1 o2 : Outcome} (h : Ext P s o1)
    (ha : After P o1 o2) : Ext P s o2 := by
  obtain ⟨n1, e1, p1⟩ := h
  obtain ⟨⟨n2, e2, p2⟩, _⟩ := ha
  refine ⟨n1 ++ n2, by rw [e2, e1, List.append_assoc], ?_⟩
  intro e he
  rcases List.mem_append.mp he with h | h
  · exact p1 e h
  · exact p2 e h

theorem Resumed.carried {P : Event → Prop} {env : Env} {opts : CreateAppCrtOptions} {m : Nat}
    {pre : List Event} {o1 o2 : Outcome} (h : Resumed env opts m pre o1)
    (ha : After P o1 o2) : Resumed env opts m pre o2 := by
  obtain ⟨hpre, hmain⟩ := h
  obtain ⟨⟨n2, e2, _⟩, hf⟩ := ha
  refine ⟨?_, ?_⟩
  · rw [e2]
    exact hpre.trans (List.prefix_append _ _)
  · rcases hmain with ⟨e, he1, he2⟩ | ⟨msg, s, h1, h2⟩
    · exact Or.inl ⟨e, he1, by rw [e2]; exact List.mem_append_left _ he2⟩
    · exact Or.inr ⟨msg, s, by rw [hf msg s h1, h1], h2⟩

theorem stepAppDir_start (env : Env) (opts : CreateAppCrtOptions) (s : State)
    (h : isNotExist env (appCrtDir opts) s.fs = true) :
    Resumed env opts 1 s.trace (stepAppDir env opts s) := by
  simp only [stepAppDir, statNotExist, h, if_true]
  split_ifs <;>
    · simp only [Resumed, Outcome.state, State.emit, Mkdir_trace, startTrace, mainAction,
        List.append_assoc]
      refine ⟨by simp, Or.inl ⟨_, rfl, by simp⟩⟩

theorem stepAppKey_start (env : Env) (opts : CreateAppCrtOptions) (s : State)
    (h : isNotExist env (applicationKeyFile opts) s.fs = true) :
    Resumed env opts 2 s.trace (stepAppKey env opts s) := by
  simp only [stepAppKey, statNotExist, h, if_true]
  split_ifs <;>
    · simp only [Resumed, Outcome.state, State.emit, Run_trace, startTrace, mainAction,
        List.append_assoc]
      refine ⟨by simp, Or.inl ⟨_, rfl, by simp⟩⟩

theorem stepAppCsr_start (env : Env) (opts : CreateAppCrtOptions) (s : State)
    (h : isNotExist env (applicationCsrFile opts) s.fs = true) :
    Resumed env opts 4 s.trace (stepAppCsr env opts s) := by
  simp only [stepAppCsr, statNotExist, h, if_true]
  split_ifs <;>
    · simp only [Resumed, Outcome.state, State.emit, Run_trace, startTrace, mainAction,
        List.append_assoc]
      refine ⟨by simp, Or.inl ⟨_, rfl, by simp⟩⟩

theorem stepAppCrt_start (env : Env) (opts : CreateAppCrtOptions) (s : State)
    (h : isNotExist env (applicationCrtFile opts) s.fs = true) :
    Resumed env opts 5 s.trace (stepAppCrt env opts s) := by
  simp only [stepAppCrt, statNotExist, h, if_true]
  split_ifs <;>
    · simp only [Resumed, Outcome.state, State.emit, Run_trace, startTrace, mainAction,
        List.append_assoc]
      refine ⟨by simp, Or.inl ⟨_, rfl, by simp⟩⟩

theorem stepAppCnf_start (env : Env) (opts : CreateAppCrtOptions) (s : State)
    (h : isNotExist env (applicationCnfFile opts) s.fs = true) :
    Resumed env opts 3 s.trace (stepAppCnf env opts s) := by
  simp only [stepAppCnf, statNotExist, h, if_true]
  cases hp : prepareAppCnf env opts.AppName opts.CommonName opts.AltNames with
  | none =>
    simp only [Resumed, Outcome.state, State.emit, startTrace, List.append_assoc]
    exact ⟨by simp, Or.inr ⟨_, _, rfl, by simp [ownAbort]⟩⟩
  | some appCnf =>
    simp only []
    split_ifs <;>
      · simp only [Resumed, Outcome.state, State.emit, WriteFile_trace, startTrace,
          mainAction, hp, List.append_assoc]
        refine ⟨by simp, Or.inl ⟨_, rfl, by simp⟩⟩

theorem writeFullchain_creates (env : Env) (opts : CreateAppCrtOptions) (R I L : Bytes)
    (s : State) (h : isNotExist env (appFullchainCrtFile opts) s.fs = true) :
    Event.create (appFullchainCrtFile opts) ∈ (writeFullchain env opts R I L s).state.trace := by
  simp only [writeFullchain, statNotExist, h, if_true]
  split_ifs <;>
    simp [Outcome.state, State.emit, Create_trace, OpenFile_trace, Write_trace]

theorem stepFullchain_start (env : Env) (opts : CreateAppCrtOptions) (s : State)
    (h : isNotExist env (appFullchainCrtFile opts) s.fs = true) :
    Resumed env opts 6 s.trace (stepFullchain env opts s) := by
  simp only [stepFullchain, ReadFile_snd]
  split
  · exact ⟨by simp [Outcome.state, State.emit, startTrace],
      Or.inr ⟨_, _, rfl, by simp [ownAbort]⟩⟩
  · split
    · exact ⟨by simp [Outcome.state, State.emit, startTrace],
        Or.inr ⟨_, _, rfl, by simp [ownAbort]⟩⟩
    · split
      · exact ⟨by simp [Outcome.state, State.emit, startTrace],
          Or.inr ⟨_, _, rfl, by simp [ownAbort]⟩⟩
      · rename_i _ R _ _ I _ _ L _
        obtain ⟨new, h1, _⟩ := writeFullchain_ext env opts R I L
          (((s.emit (.readFile opts.RootCACrt)).emit (.readFile opts.IntermediateCACrt)).emit
            (.readFile (applicationCrtFile opts)))
        refine ⟨?_, Or.inl ⟨_, rfl, writeFullchain_creates env opts R I L _ h⟩⟩
        rw [h1]
        simp [State.emit, startTrace]

theorem skipTrace_target (opts : CreateAppCrtOptions) (k : Nat) :
    ∀ e ∈ skipTrace opts k, e.target = none := by
  induction k with
  | zero => simp [skipTrace]
  | succ k ih =>
    intro e he
    simp only [skipTrace, List.mem_append] at he
    rcases he with h | h
    · exact ih e h
    · rcases k with _ | _ | _ | _ | _ | k <;> simp [skipEvents] at h <;>
        rcases h with rfl | rfl <;> rfl

theorem Outcome.done_andThen (s : State) (f : State → Outcome) :
    (Outcome.done s).andThen f = f s := rfl

theorem After.refl (P : Event → Prop) (o : Outcome) : After P o o :=
  ⟨⟨[], by simp, by simp⟩, fun _ _ _ => rfl⟩

theorem After.step {P : Event → Prop} {o1 o2 : Outcome} (h : After P o1 o2)
    {f : State → Outcome} (hf : ∀ t, Ext P t (f t)) : After P o1 (o2.andThen f) :=
  h.trans (After.single o2 hf)

theorem resume_finish (env : Env) (opts : CreateAppCrtOptions) (fs : FS) (k : Nat)
    (o1 o2 : Outcome)
    (hres : Resumed env opts (k + 1) (skipTrace opts k) o1)
    (hext : Ext (fun e => e.target = none ∨ e.target = some (artifact opts (k + 1)))
      (skipped opts fs k) o1)
    (hown : ∀ j, 1 ≤ j → j ≤ k → artifact opts j ≠ artifact opts (k + 1))
    (haft : After (fun e => ∀ j, 1 ≤ j → j ≤ k → e.target ≠ some (artifact opts j)) o1 o2) :
    (∃ rest, o2.state.trace = skipTrace opts k ++ startTrace opts (k + 1) ++ rest)
      ∧ (∀ e ∈ o2.state.trace, ∀ j, 1 ≤ j → j ≤ k → e.target ≠ some (artifact opts j))
      ∧ ((∃ e, mainAction env opts (k + 1) = some e ∧ e ∈ o2.state.trace)
          ∨ ∃ msg s, o2 = .fatal msg s ∧ msg ∈ ownAbort (k + 1)) := by
  have hext1 : Ext (fun e => ∀ j, 1 ≤ j → j ≤ k → e.target ≠ some (artifact opts j))
      (skipped opts fs k) o1 := by
    refine hext.mono ?_
    intro e he j hj1 hjk
    rcases he with h | h
    · simp [h]
    · rw [h]
      intro hc
      exact hown j hj1 hjk (Option.some.inj hc).symm
  obtain ⟨hpre, hmain⟩ := hres.carried haft
  obtain ⟨new, hnew, hP⟩ := hext1.continued haft
  refine ⟨?_, ?_, hmain⟩
  · obtain ⟨rest, hrest⟩ := hpre
    exact ⟨rest, hrest.symm⟩
  · intro e he j hj1 hjk
    rw [hnew] at he
    rcases List.mem_append.mp he with h | h
    · simp [skipTrace_target opts k e h]
    · exact hP e h j hj1 hjk

theorem resume_upto5 (env : Env) (opts : CreateAppCrtOptions) (fs : FS) (k : Nat)
    (hk : k ≤ 5) (hex : ∀ j, 1 ≤ j → j ≤ k → fs (artifact opts j) ≠ none)
    (hmiss : fs (artifact opts (k + 1)) = none)
    (hstat : env.statError (artifact opts (k + 1)) = false) :
    (∃ rest, (CreateAppCrt env opts (State.init fs)).state.trace
        = skipTrace opts k ++ startTrace opts (k + 1) ++ rest)
      ∧ (∀ e ∈ (CreateAppCrt env opts (State.init fs)).state.trace,
          ∀ j, 1 ≤ j → j ≤ k → e.target ≠ some (artifact opts j))
      ∧ ((∃ e, mainAction env opts (k + 1) = some e
            ∧ e ∈ (CreateAppCrt env opts (State.init fs)).state.trace)
          ∨ ∃ msg s, CreateAppCrt env opts (State.init fs) = .fatal msg s
            ∧ msg ∈ ownAbort (k + 1)) := by
  have hdist : ∀ j m, 1 ≤ j → j ≤ k → k < m → m ≤ 7 →
      artifact opts j ≠ artifact opts m := by
    intro j m hj hjk hkm hm
    by_cases h56 : j = 5 ∧ m = 6
    · obtain ⟨rfl, rfl⟩ := h56
      have hk5 : k = 5 := by omega
      subst hk5
      intro heq
      exact hex 5 (by omega) (by omega) (heq ▸ hmiss)
    · exact artifact_ne opts j m hj (by omega) hm h56
  have hP : ∀ m, k < m → m ≤ 7 → ∀ e : Event,
      (e.target = none ∨ e.target = some (artifact opts m)) →
      ∀ j, 1 ≤ j → j ≤ k → e.target ≠ some (artifact opts j) := by
    intro m hkm hm e he j hj hjk
    rcases he with h | h
    · simp [h]
    · rw [h]
      intro hc
      exact hdist j m hj hjk hkm hm (Option.some.inj hc).symm
  have h2 : k < 2 → ∀ t, Ext (fun e => ∀ j, 1 ≤ j → j ≤ k → e.target ≠ some (artifact opts j))
      t (stepAppKey env opts t) :=
    fun h t => (stepAppKey_ext env opts t).mono (hP 2 h (by omega))
  have h3 : k < 3 → ∀ t, Ext (fun e => ∀ j, 1 ≤ j → j ≤ k → e.target ≠ some (artifact opts j))
      t (stepAppCnf env opts t) :=
    fun h t => (stepAppCnf_ext env opts t).mono (hP 3 h (by omega))
  have h4 : k < 4 → ∀ t, Ext (fun e => ∀ j, 1 ≤ j → j ≤ k → e.target ≠ some (artifact opts j))
      t (stepAppCsr env opts t) :=
    fun h t => (stepAppCsr_ext env opts t).mono (hP 4 h (by omega))
  have h5 : k < 5 → ∀ t, Ext (fun e => ∀ j, 1 ≤ j → j ≤ k → e.target ≠ some (artifact opts j))
      t (stepAppCrt env opts t) :=
    fun h t => (stepAppCrt_ext env opts t).mono (hP 5 h (by omega))
  have h6 : k < 6 → ∀ t, Ext (fun e => ∀ j, 1 ≤ j → j ≤ k → e.target ≠ some (artifact opts j))
      t (stepFullchain env opts t) :=
    fun h t => (stepFullchain_ext env opts t).mono (hP 6 h (by omega))
  have h7 : ∀ t, Ext (fun e => ∀ j, 1 ≤ j → j ≤ k → e.target ≠ some (artifact opts j))
      t (stepPfx env opts t) :=
    fun t => (stepPfx_ext env opts t).mono (hP 7 (by omega) (by omega))
  have h8 : ∀ t, Ext (fun e => ∀ j, 1 ≤ j → j ≤ k → e.target ≠ some (artifact opts j))
      t (stepSummary env opts t) :=
    fun t => (stepSummary_ext env opts t).mono (fun e he => by simp [he.2])
  have hs1 : 1 ≤ k → stepAppDir env opts (State.init fs) = .done (skipped opts fs 1) :=
    fun h => stepAppDir_skip env opts (State.init fs)
      (isNotExist_of_exists env _ _ (hex 1 (by omega) h))
  have hs2 : 2 ≤ k → stepAppKey env opts (skipped opts fs 1) = .done (skipped opts fs 2) :=
    fun h => stepAppKey_skip env opts (skipped opts fs 1)
      (isNotExist_of_exists env _ _ (hex 2 (by omega) h))
  have hs3 : 3 ≤ k → stepAppCnf env opts (skipped opts fs 2) = .done (skipped opts fs 3) :=
    fun h => stepAppCnf_skip env opts (skipped opts fs 2)
      (isNotExist_of_exists env _ _ (hex 3 (by omega) h))
  have hs4 : 4 ≤ k → stepAppCsr env opts (skipped opts fs 3) = .done (skipped opts fs 4) :=
    fun h => stepAppCsr_skip env opts (skipped opts fs 3)
      (isNotExist_of_exists env _ _ (hex 4 (by omega) h))
  have hs5 : 5 ≤ k → stepAppCrt env opts (skipped opts fs 4) = .done (skipped opts fs 5) :=
    fun h => stepAppCrt_skip env opts (skipped opts fs 4)
      (isNotExist_of_exists env _ _ (hex 5 (by omega) h))
  have hown : ∀ j, 1 ≤ j → j ≤ k → artifact opts j ≠ artifact opts (k + 1) :=
    fun j hj hjk => hdist j (k + 1) hj hjk (by omega) (by omega)
  interval_cases k
  · exact resume_finish env opts fs 0 (stepAppDir env opts (skipped opts fs 0)) _
      (stepAppDir_start env opts (skipped opts fs 0)
        (isNotExist_of_missing env _ _ hmiss hstat))
      (stepAppDir_ext env opts (skipped opts fs 0)) hown
      (After.step (After.step (After.step (After.step (After.step (After.step (After.step
        (After.refl _ _) (h2 (by omega))) (h3 (by omega))) (h4 (by omega))) (h5 (by omega))) (h6
        (by omega))) h7) h8)
  · rw [CreateAppCrt, provision, hs1 (by omega), Outcome.done_andThen]
    exact resume_finish env opts fs 1 (stepAppKey env opts (skipped opts fs 1)) _
      (stepAppKey_start env opts (skipped opts fs 1)
        (isNotExist_of_missing env _ _ hmiss hstat))
      (stepAppKey_ext env opts (skipped opts fs 1)) hown
      (After.step (After.step (After.step (After.step (After.step (After.step (After.refl _ _)
        (h3 (by omega))) (h4 (by omega))) (h5 (by omega))) (h6 (by omega))) h7) h8)
  · rw [CreateAppCrt, provision, hs1 (by omega), Outcome.done_andThen, hs2 (by omega),
    Outcome.done_andThen]
    exact resume_finish env opts fs 2 (stepAppCnf env opts (skipped opts fs 2)) _
      (stepAppCnf_start env opts (skipped opts fs 2)
        (isNotExist_of_missing env _ _ hmiss hstat))
      (stepAppCnf_ext env opts (skipped opts fs 2)) hown
      (After.step (After.step (After.step (After.step (After.step (After.refl _ _) (h4 (by
        omega))) (h5 (by omega))) (h6 (by omega))) h7) h8)
  · rw [CreateAppCrt, provision, hs1 (by omega), Outcome.done_andThen, hs2 (by omega),
    Outcome.done_andThen, hs3 (by omega), Outcome.done_andThen]
    exact resume_finish env opts fs 3 (stepAppCsr env opts (skipped opts fs 3)) _
      (stepAppCsr_start env opts (skipped opts fs 3)
        (isNotExist_of_missing env _ _ hmiss hstat))
      (stepAppCsr_ext env opts (skipped opts fs 3)) hown
      (After.step (After.step (After.step (After.step (After.refl _ _) (h5 (by omega))) (h6
        (by omega))) h7) h8)
  · rw [CreateAppCrt, provision, hs1 (by omega), Outcome.done_andThen, hs2 (by omega),
    Outcome.done_andThen, hs3 (by omega), Outcome.done_andThen, hs4 (by omega),
    Outcome.done_andThen]
    exact resume_finish env opts fs 4 (stepAppCrt env opts (skipped opts fs 4)) _
      (stepAppCrt_start env opts (skipped opts fs 4)
        (isNotExist_of_missing env _ _ hmiss hstat))
      (stepAppCrt_ext env opts (skipped opts fs 4)) hown
      (After.step (After.step (After.step (After.refl _ _) (h6 (by omega))) h7) h8)
  · rw [CreateAppCrt, provision, hs1 (by omega), Outcome.done_andThen, hs2 (by omega),
    Outcome.done_andThen, hs3 (by omega), Outcome.done_andThen, hs4 (by omega),
    Outcome.done_andThen, hs5 (by omega), Outcome.done_andThen]
    exact resume_finish env opts fs 5 (stepFullchain env opts (skipped opts fs 5)) _
      (stepFullchain_start env opts (skipped opts fs 5)
        (isNotExist_of_missing env _ _ hmiss hstat))
      (stepFullchain_ext env opts (skipped opts fs 5)) hown
      (After.step (After.step (After.refl _ _) h7) h8)

/-! ## Steps that find their output in place -/

theorem Quiet.chain {s : State} {o : Outcome} {f : State → Outcome} (h : Quiet s o)
    (hf : ∀ t, t.fs = s.fs → Quiet t (f t)) : Quiet s (o.andThen f) := by
  cases o with
  | fatal msg t => exact h
  | done t =>
    obtain ⟨hfs, new, h1, h2⟩ := h
    obtain ⟨hfs2, new2, h3, h4⟩ := hf t hfs
    refine ⟨by rw [Outcome.done_andThen, hfs2, ← hfs]; rfl, new ++ new2, ?_, ?_⟩
    · simp only [Outcome.state] at h1
      rw [Outcome.done_andThen, h3, h1, List.append_assoc]
    · intro e he
      rcases List.mem_append.mp he with h | h
      · exact h2 e h
      · exact h4 e h

theorem quiet_of_skip (opts : CreateAppCrtOptions) (s : State) (o : Outcome) (m : Nat)
    (h : o = .done { fs := s.fs, trace := s.trace ++ skipEvents opts m }) : Quiet s o := by
  subst h
  refine ⟨rfl, skipEvents opts m, rfl, ?_⟩
  intro e he
  rcases m with _ | _ | _ | _ | _ | _ | m <;> simp [skipEvents] at he <;>
    rcases he with rfl | rfl <;> exact ⟨rfl, rfl⟩

theorem writeFullchain_skip (env : Env) (opts : CreateAppCrtOptions) (R I L : Bytes)
    (s : State) (h : isNotExist env (appFullchainCrtFile opts) s.fs = false) :
    writeFullchain env opts R I L s
      = .done { fs := s.fs, trace := s.trace ++ [.stat (appFullchainCrtFile opts),
          .log .debug "App fullchain crt already exits, skipping."] } := by
  simp [writeFullchain, statNotExist, State.emit, h]

theorem stepFullchain_quiet (env : Env) (opts : CreateAppCrtOptions) (s : State)
    (h : isNotExist env (appFullchainCrtFile opts) s.fs = false) :
    Quiet s (stepFullchain env opts s) := by
  simp only [stepFullchain, ReadFile_snd]
  split
  · exact ⟨rfl, [.readFile opts.RootCACrt], rfl, by simp [Event.target, Event.readOnly]⟩
  · split
    · exact ⟨rfl, [.readFile opts.RootCACrt, .readFile opts.IntermediateCACrt],
        by simp [Outcome.state, State.emit], by simp [Event.target, Event.readOnly]⟩
    · split
      · exact ⟨rfl, [.readFile opts.RootCACrt, .readFile opts.IntermediateCACrt,
          .readFile (applicationCrtFile opts)],
          by simp [Outcome.state, State.emit], by simp [Event.target, Event.readOnly]⟩
      · rw [writeFullchain_skip env opts _ _ _
          (((s.emit (.readFile opts.RootCACrt)).emit (.readFile opts.IntermediateCACrt)).emit
            (.readFile (applicationCrtFile opts))) h]
        exact ⟨rfl, [.readFile opts.RootCACrt, .readFile opts.IntermediateCACrt,
          .readFile (applicationCrtFile opts), .stat (appFullchainCrtFile opts),
          .log .debug "App fullchain crt already exits, skipping."],
          by simp [Outcome.state, State.emit], by simp [Event.target, Event.readOnly]⟩

theorem stepPfx_quiet (env : Env) (opts : CreateAppCrtOptions) (s : State)
    (h : isNotExist env (applicationPfxFile opts) s.fs = false ∨ opts.P12 = false) :
    Quiet s (stepPfx env opts s) := by
  simp only [stepPfx, statNotExist, State.emit]
  rcases h with h | h
  · simp only [h, Bool.false_eq_true, if_false]
    exact ⟨rfl, [.stat (applicationPfxFile opts),
      .log .debug "App pfx already exits, skipping."], by simp [Outcome.state],
      by simp [Event.target, Event.readOnly]⟩
  · simp only [h, Bool.false_eq_true, if_false]
    split_ifs
    · exact ⟨rfl, [.stat (applicationPfxFile opts)], rfl,
        by simp [Event.target, Event.readOnly]⟩
    · exact ⟨rfl, [.stat (applicationPfxFile opts),
        .log .debug "App pfx already exits, skipping."], by simp [Outcome.state],
        by simp [Event.target, Event.readOnly]⟩

theorem stepSummary_quiet (env : Env) (opts : CreateAppCrtOptions) (s : State) :
    Quiet s (stepSummary env opts s) :=
  ⟨stepSummary_fs env opts s, stepSummary_ext env opts s⟩

theorem skipTrace_readOnly (opts : CreateAppCrtOptions) (k : Nat) :
    ∀ e ∈ skipTrace opts k, e.readOnly = true := by
  induction k with
  | zero => simp [skipTrace]
  | succ k ih =>
    intro e he
    simp only [skipTrace, List.mem_append] at he
    rcases he with h | h
    · exact ih e h
    · rcases k with _ | _ | _ | _ | _ | k <;> simp [skipEvents] at h <;>
        rcases h with rfl | rfl <;> rfl

/-! ## C5: resuming after an interrupted run -/

theorem resume_at6 (env : Env) (opts : CreateAppCrtOptions) (fs : FS)
    (hex : ∀ j, 1 ≤ j → j ≤ 6 → fs (artifact opts j) ≠ none) :
    ∀ e ∈ (CreateAppCrt env opts (State.init fs)).state.trace,
      ∀ j, 1 ≤ j → j ≤ 6 → e.target ≠ some (artifact opts j) := by
  have hs1 : stepAppDir env opts (State.init fs) = .done (skipped opts fs 1) :=
    stepAppDir_skip env opts (State.init fs)
      (isNotExist_of_exists env _ _ (hex 1 (by omega) (by omega)))
  have hs2 : stepAppKey env opts (skipped opts fs 1) = .done (skipped opts fs 2) :=
    stepAppKey_skip env opts (skipped opts fs 1)
      (isNotExist_of_exists env _ _ (hex 2 (by omega) (by omega)))
  have hs3 : stepAppCnf env opts (skipped opts fs 2) = .done (skipped opts fs 3) :=
    stepAppCnf_skip env opts (skipped opts fs 2)
      (isNotExist_of_exists env _ _ (hex 3 (by omega) (by omega)))
  have hs4 : stepAppCsr env opts (skipped opts fs 3) = .done (skipped opts fs 4) :=
    stepAppCsr_skip env opts (skipped opts fs 3)
      (isNotExist_of_exists env _ _ (hex 4 (by omega) (by omega)))
  have hs5 : stepAppCrt env opts (skipped opts fs 4) = .done (skipped opts fs 5) :=
    stepAppCrt_skip env opts (skipped opts fs 4)
      (isNotExist_of_exists env _ _ (hex 5 (by omega) (by omega)))
  have hq6 : Quiet (skipped opts fs 5) (stepFullchain env opts (skipped opts fs 5)) :=
    stepFullchain_quiet env opts _
      (isNotExist_of_exists env _ _ (hex 6 (by omega) (by omega)))
  rw [CreateAppCrt, provision, hs1, Outcome.done_andThen, hs2, Outcome.done_andThen, hs3,
    Outcome.done_andThen, hs4, Outcome.done_andThen, hs5, Outcome.done_andThen]
  have h7 : ∀ t, Ext (fun e => ∀ j, 1 ≤ j → j ≤ 6 → e.target ≠ some (artifact opts j))
      t (stepPfx env opts t) := by
    intro t
    refine (stepPfx_ext env opts t).mono ?_
    intro e he j hj hj6
    rcases he with h | h
    · simp [h]
    · rw [h]
      intro hc
      exact artifact_ne opts j 7 hj (by omega) (by omega) (by omega)
        (Option.some.inj hc).symm
  have h8 : ∀ t, Ext (fun e => ∀ j, 1 ≤ j → j ≤ 6 → e.target ≠ some (artifact opts j))
      t (stepSummary env opts t) :=
    fun t => (stepSummary_ext env opts t).mono (fun e he => by simp [he.2])
  have h6 : Ext (fun e => ∀ j, 1 ≤ j → j ≤ 6 → e.target ≠ some (artifact opts j))
      (skipped opts fs 5) (stepFullchain env opts (skipped opts fs 5)) :=
    hq6.2.mono (fun e he => by simp [he.2])
  obtain ⟨new, hnew, hP⟩ := (h6.seq h7).seq h8
  intro e he j hj hj6
  rw [hnew] at he
  rcases List.mem_append.mp he with h | h
  · simp [skipTrace_target opts 5 e h]
  · exact hP e h j hj hj6

/-- C5 as amended: for `k` from 0 to 6, when the outputs of steps 1 to `k`
(app directory, key, cnf, csr, crt, fullchain.crt, in that order) exist and
`os.Stat` reports the output of step `k+1` as not existing (the path is absent
and the stat call fails with no other error), no action of the run creates or
writes the output of a step from 1 to `k`.  For `k` up to 5 the run does
nothing for steps 1 to `k` but probe their outputs and log that it skips them,
then starts step `k+1`, which reaches its main action (mkdir, openssl command,
write of the cnf, creation of `fullchain.crt`) unless it ends the process with
a fatal message of its own (the template error of step 3, a read error of
step 6). -/
theorem CreateAppCrt_resume (env : Env) (opts : CreateAppCrtOptions) (fs : FS) (k : Nat)
    (hk : k ≤ 6) (hex : ∀ j, 1 ≤ j → j ≤ k → fs (artifact opts j) ≠ none)
    (hmiss : fs (artifact opts (k + 1)) = none)
    (hstat : env.statError (artifact opts (k + 1)) = false) :
    (∀ e ∈ (CreateAppCrt env opts (State.init fs)).state.trace,
        ∀ j, 1 ≤ j → j ≤ k → e.target ≠ some (artifact opts j))
      ∧ (k ≤ 5 →
          (∃ rest, (CreateAppCrt env opts (State.init fs)).state.trace
              = skipTrace opts k ++ startTrace opts (k + 1) ++ rest)
            ∧ ((∃ e, mainAction env opts (k + 1) = some e
                  ∧ e ∈ (CreateAppCrt env opts (State.init fs)).state.trace)
                ∨ ∃ msg s, CreateAppCrt env opts (State.init fs) = .fatal msg s
                  ∧ msg ∈ ownAbort (k + 1))) := by
  by_cases h5 : k ≤ 5
  · obtain ⟨hpre, hno, hmain⟩ := resume_upto5 env opts fs k h5 hex hmiss hstat
    exact ⟨hno, fun _ => ⟨hpre, hmain⟩⟩
  · have h6 : k = 6 := by omega
    subst h6
    exact ⟨resume_at6 env opts fs hex, fun h => absurd h h5⟩

/-- Witness of C5 with `k = 2`: with the app directory and the key on disk and
the cnf missing, the run skips the first two steps and starts with the cnf
step. -/
theorem CreateAppCrt_resume_witness :
    ∃ rest, (CreateAppCrt linuxEnv webOpts (State.init interruptedFS)).state.trace
      = skipTrace webOpts 2 ++ startTrace webOpts 3 ++ rest :=
  ((CreateAppCrt_resume linuxEnv webOpts interruptedFS 2 (by decide)
    (fun j h1 h2 => by interval_cases j <;> decide) (by decide) rfl).2 (by decide)).1

/-- Counterexample to C5 as stated, at `k = 1`: the app directory of `web`
exists and the key is missing, but the directory cannot be searched, so
`os.Stat` on the key fails with "permission denied", which `os.IsNotExist`
does not take for a missing file: the run logs that the key already exists,
never runs `openssl genpkey`, runs no command and writes nothing, and ends in
`log.Fatal` on reading the app certificate. -/
theorem CreateAppCrt_resume_counterexample :
    lockedFS (artifact webOpts 1) = some .dir
      ∧ lockedFS (artifact webOpts 2) = none
      ∧ Event.log .debug "App Key already exists, skipping."
          ∈ (CreateAppCrt lockedEnv webOpts (State.init lockedFS)).state.trace
      ∧ Event.exec (createAppKeyCmd webOpts)
          ∉ (CreateAppCrt lockedEnv webOpts (State.init lockedFS)).state.trace
      ∧ (∀ e ∈ (CreateAppCrt lockedEnv webOpts (State.init lockedFS)).state.trace,
          e.readOnly = true)
      ∧ (CreateAppCrt lockedEnv webOpts (State.init lockedFS)).isFatal = true := by
  refine ⟨by decide, by decide, by decide, by decide, by decide, by decide⟩

/-! ## What the steps leave alone -/

theorem FS.set_other (fs : FS) (q p : Path) (n : Node) (h : q ≠ p) :
    (fs.set q n) p = fs p := by
  simp only [FS.set]
  split_ifs with h1
  · exact absurd h1.symm h
  · rfl

theorem Mkdir_frame (env : Env) (q p : Path) (s : State) (h : q ≠ p) :
    (Mkdir env q s).2.fs p = s.fs p := by
  simp only [Mkdir, State.emit]
  split_ifs
  · rfl
  · exact FS.set_other _ _ _ _ h

theorem WriteFile_frame (env : Env) (q p : Path) (c : Bytes) (s : State) (h : q ≠ p) :
    (WriteFile env q c s).2.fs p = s.fs p := by
  simp only [WriteFile, State.emit]
  split_ifs
  · rfl
  · exact FS.set_other _ _ _ _ h

theorem Run_frame (env : Env) (c : Cmd) (p : Path) (s : State) (hf : LeavesAlone env p)
    (h : c.outFile ≠ some p) : (Run env c s).2.fs p = s.fs p :=
  hf c s.fs h

theorem stepAppDir_frame (env : Env) (opts : CreateAppCrtOptions) (s : State) (p : Path)
    (h : appCrtDir opts ≠ p) : (stepAppDir env opts s).state.fs p = s.fs p := by
  simp only [stepAppDir, statNotExist]
  split_ifs <;> first
    | exact Mkdir_frame env _ p _ h
    | rfl

theorem stepAppKey_frame (env : Env) (opts : CreateAppCrtOptions) (s : State) (p : Path)
    (hf : LeavesAlone env p) (h : applicationKeyFile opts ≠ p) :
    (stepAppKey env opts s).state.fs p = s.fs p := by
  have hc : (createAppKeyCmd opts).outFile ≠ some p := by
    rw [outFile_key]
    exact fun hc => h (Option.some.inj hc)
  simp only [stepAppKey, statNotExist]
  split_ifs <;> first
    | exact Run_frame env _ p _ hf hc
    | rfl

theorem stepAppCnf_frame (env : Env) (opts : CreateAppCrtOptions) (s : State) (p : Path)
    (h : applicationCnfFile opts ≠ p) : (stepAppCnf env opts s).state.fs p = s.fs p := by
  simp only [stepAppCnf, statNotExist]
  cases prepareAppCnf env opts.AppName opts.CommonName opts.AltNames <;>
    simp only [] <;> split_ifs <;> first
    | exact WriteFile_frame env _ p _ _ h
    | rfl

theorem stepAppCsr_frame (env : Env) (opts : CreateAppCrtOptions) (s : State) (p : Path)
    (hf : LeavesAlone env p) (h : applicationCsrFile opts ≠ p) :
    (stepAppCsr env opts s).state.fs p = s.fs p := by
  have hc : (createAppCsrCmd opts).outFile ≠ some p := by
    rw [outFile_csr]
    exact fun hc => h (Option.some.inj hc)
  simp only [stepAppCsr, statNotExist]
  split_ifs <;> first
    | exact Run_frame env _ p _ hf hc
    | rfl

theorem stepAppCrt_frame (env : Env) (opts : CreateAppCrtOptions) (s : State) (p : Path)
    (hf : LeavesAlone env p) (h : applicationCrtFile opts ≠ p) :
    (stepAppCrt env opts s).state.fs p = s.fs p := by
  have hc : (createAppCrtCmd opts).outFile ≠ some p := by
    rw [outFile_crt]
    exact fun hc => h (Option.some.inj hc)
  simp only [stepAppCrt, statNotExist]
  split_ifs <;> first
    | exact Run_frame env _ p _ hf hc
    | rfl

theorem stepPfx_frame (env : Env) (opts : CreateAppCrtOptions) (s : State) (p : Path)
    (hf : LeavesAlone env p) (h : applicationPfxFile opts ≠ p) :
    (stepPfx env opts s).state.fs p = s.fs p := by
  have hc : (createAppPfxCmd opts).outFile ≠ some p := by
    rw [outFile_pfx]
    exact fun hc => h (Option.some.inj hc)
  simp only [stepPfx, statNotExist]
  split_ifs <;> first
    | exact Run_frame env _ p _ hf hc
    | rfl

theorem andThen_frame (o : Outcome) (f : State → Outcome) (p : Path)
    (hf : ∀ t, (f t).state.fs p = t.fs p) : (o.andThen f).state.fs p = o.state.fs p := by
  cases o with
  | done t => exact hf t
  | fatal msg t => rfl

theorem crt_ne_fullchain (opts : CreateAppCrtOptions) (h : opts.AppName ≠ "fullchain") :
    applicationCrtFile opts ≠ appFullchainCrtFile opts := by
  intro heq
  apply h
  unfold applicationCrtFile appFullchainCrtFile at heq
  rw [fullchain_split, String.append_assoc (appCrtDir opts) "/" opts.AppName] at heq
  have hd := congrArg String.data heq
  simp only [String.data_append] at hd
  have h1 := (List.append_inj' hd rfl).1
  have h2 : opts.AppName.data = "fullchain".data := by
    have h4 := List.append_cancel_left h1
    exact @List.append_cancel_left Char ['/'] _ _ h4
  exact String.ext h2

theorem provision_frame (env : Env) (opts : CreateAppCrtOptions) (s : State)
    (hname : opts.AppName ≠ "fullchain")
    (hf : LeavesAlone env (appFullchainCrtFile opts)) :
    (provision env opts s).state.fs (appFullchainCrtFile opts)
      = s.fs (appFullchainCrtFile opts) := by
  have n1 : appCrtDir opts ≠ appFullchainCrtFile opts :=
    artifact_ne opts 1 6 (by omega) (by omega) (by omega) (by omega)
  have n2 : applicationKeyFile opts ≠ appFullchainCrtFile opts :=
    artifact_ne opts 2 6 (by omega) (by omega) (by omega) (by omega)
  have n3 : applicationCnfFile opts ≠ appFullchainCrtFile opts :=
    artifact_ne opts 3 6 (by omega) (by omega) (by omega) (by omega)
  have n4 : applicationCsrFile opts ≠ appFullchainCrtFile opts :=
    artifact_ne opts 4 6 (by omega) (by omega) (by omega) (by omega)
  have n5 := crt_ne_fullchain opts hname
  rw [provision, andThen_frame _ _ _ (fun t => stepAppCrt_frame env opts t _ hf n5),
    andThen_frame _ _ _ (fun t => stepAppCsr_frame env opts t _ hf n4),
    andThen_frame _ _ _ (fun t => stepAppCnf_frame env opts t _ n3),
    andThen_frame _ _ _ (fun t => stepAppKey_frame env opts t _ hf n2)]
  exact stepAppDir_frame env opts s _ n1

theorem toolExec_leaves (p : Path) : LeavesAlone linuxEnv p := by
  intro c fs h
  show (toolExec c fs).fs p = fs p
  unfold Cmd.outFile at h
  unfold toolExec
  split
  · rename_i q _ heq
    rw [heq] at h
    exact FS.set_other _ _ _ _ (fun hq => h (by rw [hq]; rfl))
  · rfl

/-! ## C3 and C2: assembling the full chain -/

/-- C3 as amended: when the app is not named `fullchain`, `fullchain.crt` does
not exist when `CreateAppCrt` is called, no external command touches
`fullchain.crt` unless it is its `-out` file, and reading the root, the
intermediate or the app certificate fails in the state in which the run
reaches the chain step, `CreateAppCrt` ends in `log.Fatal` and `fullchain.crt`
still does not exist; when the run reached the chain step the message is that
of a failed read and from that state on the run has done nothing but read
files, the file system being unchanged. -/
theorem CreateAppCrt_read_failure_aborts (env : Env) (opts : CreateAppCrtOptions)
    (s : State) (hname : opts.AppName ≠ "fullchain")
    (hframe : LeavesAlone env (appFullchainCrtFile opts))
    (hfc : s.fs (appFullchainCrtFile opts) = none)
    (hread : ∀ s5, provision env opts s = .done s5 →
      (ReadFile env opts.RootCACrt s5).1 = none
        ∨ (ReadFile env opts.IntermediateCACrt s5).1 = none
        ∨ (ReadFile env (applicationCrtFile opts) s5).1 = none) :
    ∃ msg s6, CreateAppCrt env opts s = .fatal msg s6
      ∧ s6.fs (appFullchainCrtFile opts) = none
      ∧ ∀ s5, provision env opts s = .done s5 →
          msg ∈ ["Error while reading Root CA cert for fullchain:",
            "Error while reading Intermediate CA cert for fullchain:",
            "Error while reading App cert for fullchain:"]
          ∧ s6.fs = s5.fs
          ∧ ∃ reads, s6.trace = s5.trace ++ reads ∧ ∀ e ∈ reads, ∃ p, e = Event.readFile p := by
  have hprov := provision_frame env opts s hname hframe
  cases hp : provision env opts s with
  | fatal msg t =>
    rw [hp] at hprov
    refine ⟨msg, t, by simp [CreateAppCrt, hp, Outcome.andThen], ?_, ?_⟩
    · rw [← hfc]
      exact hprov
    · intro s5 h
      cases h
  | done s5 =>
    rw [hp] at hprov
    have hfc5 : s5.fs (appFullchainCrtFile opts) = none := by
      rw [← hfc]
      exact hprov
    have hread5 := hread s5 hp
    have h2 : (ReadFile env opts.IntermediateCACrt (s5.emit (.readFile opts.RootCACrt))).1
        = (ReadFile env opts.IntermediateCACrt s5).1 := ReadFile_fst_congr _ _ _ _ rfl
    have h3 : (ReadFile env (applicationCrtFile opts)
        ((s5.emit (.readFile opts.RootCACrt)).emit (.readFile opts.IntermediateCACrt))).1
        = (ReadFile env (applicationCrtFile opts) s5).1 := ReadFile_fst_congr _ _ _ _ rfl
    simp only [CreateAppCrt, hp, Outcome.andThen, stepFullchain, ReadFile_snd, h2, h3]
    cases hR : (ReadFile env opts.RootCACrt s5).1 with
    | none =>
      refine ⟨_, _, rfl, hfc5, ?_⟩
      intro t ht
      cases ht
      exact ⟨by simp, rfl, [.readFile opts.RootCACrt], rfl, by simp⟩
    | some R =>
      cases hI : (ReadFile env opts.IntermediateCACrt s5).1 with
      | none =>
        refine ⟨_, _, rfl, hfc5, ?_⟩
        intro t ht
        cases ht
        exact ⟨by simp, rfl, [.readFile opts.RootCACrt, .readFile opts.IntermediateCACrt],
          by simp [State.emit], by simp⟩
      | some I =>
        cases hL : (ReadFile env (applicationCrtFile opts) s5).1 with
        | none =>
          refine ⟨_, _, rfl, hfc5, ?_⟩
          intro t ht
          cases ht
          exact ⟨by simp, rfl, [.readFile opts.RootCACrt, .readFile opts.IntermediateCACrt,
            .readFile (applicationCrtFile opts)], by simp [State.emit], by simp⟩
        | some L =>
          simp [hR, hI, hL] at hread5

/-- Witness of C3: with no root certificate on disk, issuing the `web`
certificate ends in `log.Fatal` and leaves no `fullchain.crt`. -/
theorem CreateAppCrt_read_failure_aborts_witness :
    (CreateAppCrt linuxEnv webOpts (State.init noRootFS)).isFatal = true
      ∧ (CreateAppCrt linuxEnv webOpts (State.init noRootFS)).state.fs
          "/out/web/fullchain.crt" = none := by
  obtain ⟨msg, s6, h, hnone, _⟩ :=
    CreateAppCrt_read_failure_aborts linuxEnv webOpts (State.init noRootFS) (by decide)
      (toolExec_leaves _) (by decide)
      (fun s5 h5 => Or.inl (by
        have e : (provision linuxEnv webOpts (State.init noRootFS)).state = s5 := by
          rw [h5]
          rfl
        rw [← e]
        decide))
  rw [h]
  exact ⟨rfl, hnone⟩

/-- Counterexample to C3 as stated: for the app named `fullchain`, with no
root certificate on disk and no `fullchain.crt` when `CreateAppCrt` is called,
reading the root certificate fails and the run ends in `log.Fatal`, yet
`fullchain.crt` exists at the end: the signing step wrote the app certificate
to that path, so it holds the leaf alone. -/
theorem CreateAppCrt_read_failure_aborts_counterexample :
    noRootFS (appFullchainCrtFile fullchainOpts) = none
      ∧ (ReadFile linuxEnv fullchainOpts.RootCACrt
          (provision linuxEnv fullchainOpts (State.init noRootFS)).state).1 = none
      ∧ (CreateAppCrt linuxEnv fullchainOpts (State.init noRootFS)).isFatal = true
      ∧ (CreateAppCrt linuxEnv fullchainOpts (State.init noRootFS)).state.fs
          "/out/fullchain/fullchain.crt" = some (.file [7]) := by
  refine ⟨by decide, by decide, by decide, by decide⟩

/-- C2 as amended: when the app is not named `fullchain`, `fullchain.crt` does
not exist when `CreateAppCrt` is called and `os.Stat` reports so, no external
command touches `fullchain.crt` unless it is its `-out` file, the run reaches
the chain step, the app, intermediate and root certificates read there as `L`,
`I` and `R`, and creating, opening and writing `fullchain.crt` do not fail,
`CreateAppCrt` ends with `fullchain.crt` holding exactly `L` followed by `I`
followed by `R`. -/
theorem CreateAppCrt_fullchain_content (env : Env) (opts : CreateAppCrtOptions)
    (s s5 : State) (L I R : Bytes) (hname : opts.AppName ≠ "fullchain")
    (hframe : LeavesAlone env (appFullchainCrtFile opts))
    (hfc : s.fs (appFullchainCrtFile opts) = none)
    (hstat : env.statError (appFullchainCrtFile opts) = false)
    (hreach : provision env opts s = .done s5)
    (hR : (ReadFile env opts.RootCACrt s5).1 = some R)
    (hI : (ReadFile env opts.IntermediateCACrt s5).1 = some I)
    (hL : (ReadFile env (applicationCrtFile opts) s5).1 = some L)
    (hcreate : ∀ fs, env.fault (.create (appFullchainCrtFile opts)) fs = false)
    (hopen : ∀ fs, env.fault (.openFile (appFullchainCrtFile opts)) fs = false)
    (hwrite : ∀ fs, env.fault (.write (appFullchainCrtFile opts)) fs = false) :
    (CreateAppCrt env opts s).state.fs (appFullchainCrtFile opts)
      = some (.file (L ++ I ++ R)) := by
  have hprov := provision_frame env opts s hname hframe
  rw [hreach] at hprov
  have hfc5 : s5.fs (appFullchainCrtFile opts) = none := by
    rw [← hfc]
    exact hprov
  have h2 : (ReadFile env opts.IntermediateCACrt (s5.emit (.readFile opts.RootCACrt))).1
      = (ReadFile env opts.IntermediateCACrt s5).1 := ReadFile_fst_congr _ _ _ _ rfl
  have h3 : (ReadFile env (applicationCrtFile opts)
      ((s5.emit (.readFile opts.RootCACrt)).emit (.readFile opts.IntermediateCACrt))).1
      = (ReadFile env (applicationCrtFile opts) s5).1 := ReadFile_fst_congr _ _ _ _ rfl
  have h6 := writeFullchain_ok env opts R I L
    (((s5.emit (.readFile opts.RootCACrt)).emit (.readFile opts.IntermediateCACrt)).emit
      (.readFile (applicationCrtFile opts))) hfc5 hstat hcreate hopen hwrite
  have hpfx : applicationPfxFile opts ≠ appFullchainCrtFile opts :=
    (artifact_ne opts 6 7 (by omega) (by omega) (by omega) (by omega)).symm
  rw [CreateAppCrt, andThen_stepSummary_fs, hreach]
  simp only [Outcome.andThen, stepFullchain, ReadFile_snd, h2, h3, hR, hI, hL, h6]
  rw [stepPfx_frame env opts _ _ hframe hpfx]
  exact FS.set_same _ _ _

/-- Witness of C2: with the root and the intermediate certificate on disk,
issuing the `web` certificate leaves the app certificate the tool wrote, then
the intermediate, then the root certificate in `fullchain.crt`. -/
theorem CreateAppCrt_fullchain_content_witness :
    (CreateAppCrt linuxEnv webOpts (State.init caFS)).state.fs "/out/web/fullchain.crt"
      = some (.file [7, 2, 2, 3, 3, 3]) :=
  CreateAppCrt_fullchain_content linuxEnv webOpts (State.init caFS)
    (provision linuxEnv webOpts (State.init caFS)).state [7] [2, 2] [3, 3, 3]
    (by decide) (toolExec_leaves _) (by decide) rfl
    (Outcome.eq_done_of_isFatal _ (by decide)) (by decide) (by decide) (by decide)
    (fun _ => rfl) (fun _ => rfl) (fun _ => rfl)

/-- Counterexample to C2 as stated: for the app named `fullchain`, with no
`fullchain.crt` when `CreateAppCrt` is called and every read and write
succeeding, the run returns, the leaf, intermediate and root certificates read
as `[7]`, `[2, 2]` and `[3, 3, 3]`, and `fullchain.crt` holds the leaf alone. -/
theorem CreateAppCrt_fullchain_content_counterexample :
    caFS (appFullchainCrtFile fullchainOpts) = none
      ∧ (CreateAppCrt linuxEnv fullchainOpts (State.init caFS)).isFatal = false
      ∧ (ReadFile linuxEnv (applicationCrtFile fullchainOpts)
          (provision linuxEnv fullchainOpts (State.init caFS)).state).1 = some [7]
      ∧ (ReadFile linuxEnv fullchainOpts.IntermediateCACrt
          (provision linuxEnv fullchainOpts (State.init caFS)).state).1 = some [2, 2]
      ∧ (ReadFile linuxEnv fullchainOpts.RootCACrt
          (provision linuxEnv fullchainOpts (State.init caFS)).state).1 = some [3, 3, 3]
      ∧ (CreateAppCrt linuxEnv fullchainOpts (State.init caFS)).state.fs
          "/out/fullchain/fullchain.crt" = some (.file [7])
      ∧ (CreateAppCrt linuxEnv fullchainOpts (State.init caFS)).state.fs
          "/out/fullchain/fullchain.crt" ≠ some (.file ([7] ++ [2, 2] ++ [3, 3, 3])) := by
  refine ⟨by decide, by decide, by decide, by decide, by decide, by decide, by decide⟩

/-! ## C4: a second run -/

theorem Mkdir_keeps (env : Env) (q p : Path) (s : State) (h : s.fs p ≠ none) :
    (Mkdir env q s).2.fs p ≠ none := by
  simp only [Mkdir, State.emit]
  split_ifs
  · exact h
  · exact FS.set_ne_none _ _ _ _ h

theorem Mkdir_post (env : Env) (q : Path) (s : State) (h : (Mkdir env q s).1 = true) :
    (Mkdir env q s).2.fs q ≠ none := by
  revert h
  simp only [Mkdir, State.emit]
  split_ifs <;> simp [FS.set_same]

theorem WriteFile_keeps (env : Env) (q p : Path) (c : Bytes) (s : State)
    (h : s.fs p ≠ none) : (WriteFile env q c s).2.fs p ≠ none := by
  simp only [WriteFile, State.emit]
  split_ifs
  · exact h
  · exact FS.set_ne_none _ _ _ _ h

theorem WriteFile_post (env : Env) (q : Path) (c : Bytes) (s : State)
    (h : (WriteFile env q c s).1 = true) : (WriteFile env q c s).2.fs q ≠ none := by
  revert h
  simp only [WriteFile, State.emit]
  split_ifs <;> simp [FS.set_same]

theorem Create_keeps (env : Env) (q p : Path) (s : State) (h : s.fs p ≠ none) :
    (Create env q s).2.fs p ≠ none := by
  simp only [Create, State.emit]
  split_ifs
  · exact h
  · exact FS.set_ne_none _ _ _ _ h

theorem Create_post (env : Env) (q : Path) (s : State) (h : (Create env q s).1 = true) :
    (Create env q s).2.fs q ≠ none := by
  revert h
  simp only [Create, State.emit]
  split_ifs <;> simp [FS.set_same]

theorem OpenFile_fs (env : Env) (q : Path) (s : State) : (OpenFile env q s).2.fs = s.fs := by
  simp only [OpenFile, State.emit]
  split_ifs
  · rfl
  · split <;> rfl

theorem Write_keeps (env : Env) (q p : Path) (c : Bytes) (s : State) (h : s.fs p ≠ none) :
    (Write env q c s).2.fs p ≠ none := by
  simp only [Write, State.emit]
  split_ifs
  · exact h
  · split
    · exact FS.set_ne_none _ _ _ _ h
    · exact h

theorem Run_keeps (env : Env) (hT : ToolContract env) (c : Cmd) (p : Path) (s : State)
    (h : s.fs p ≠ none) : (Run env c s).2.fs p ≠ none :=
  hT.keeps c s.fs p h

theorem Run_post (env : Env) (hT : ToolContract env) (c : Cmd) (p : Path) (s : State)
    (hout : c.outFile = some p) (h : (Run env c s).1.1 = false) :
    (Run env c s).2.fs p ≠ none :=
  hT.creates c s.fs p hout h

theorem andThen_done {o : Outcome} {f : State → Outcome} {t : State}
    (h : o.andThen f = .done t) : ∃ u, o = .done u ∧ f u = .done t := by
  cases o with
  | done u => exact ⟨u, rfl, h⟩
  | fatal msg u => cases h

theorem stepAppDir_keeps (env : Env) (opts : CreateAppCrtOptions) (s : State) (p : Path)
    (h : s.fs p ≠ none) : (stepAppDir env opts s).state.fs p ≠ none := by
  simp only [stepAppDir, statNotExist]
  split_ifs <;> first
    | exact Mkdir_keeps env _ p _ h
    | exact h

theorem stepAppDir_post (env : Env) (opts : CreateAppCrtOptions) (s t : State)
    (h : stepAppDir env opts s = .done t) :
    isNotExist env (appCrtDir opts) t.fs = false := by
  revert h
  simp only [stepAppDir, statNotExist]
  split_ifs with h1 h2
  · intro h
    cases h
    exact isNotExist_of_exists env _ _ (Mkdir_post env _ _ h2)
  · intro h
    cases h
  · intro h
    cases h
    simpa [State.emit] using h1

theorem stepTool_keeps (env : Env) (hT : ToolContract env) (opts : CreateAppCrtOptions)
    (s : State) (p : Path) (h : s.fs p ≠ none) :
    (stepAppKey env opts s).state.fs p ≠ none
      ∧ (stepAppCsr env opts s).state.fs p ≠ none
      ∧ (stepAppCrt env opts s).state.fs p ≠ none
      ∧ (stepPfx env opts s).state.fs p ≠ none := by
  refine ⟨?_, ?_, ?_, ?_⟩
  · simp only [stepAppKey, statNotExist]
    split_ifs <;> first
      | exact Run_keeps env hT _ p _ h
      | exact h
  · simp only [stepAppCsr, statNotExist]
    split_ifs <;> first
      | exact Run_keeps env hT _ p _ h
      | exact h
  · simp only [stepAppCrt, statNotExist]
    split_ifs <;> first
      | exact Run_keeps env hT _ p _ h
      | exact h
  · simp only [stepPfx, statNotExist]
    split_ifs <;> first
      | exact Run_keeps env hT _ p _ h
      | exact h

theorem stepAppKey_post (env : Env) (hT : ToolContract env) (opts : CreateAppCrtOptions)
    (s t : State) (h : stepAppKey env opts s = .done t) :
    isNotExist env (applicationKeyFile opts) t.fs = false := by
  revert h
  simp only [stepAppKey, statNotExist]
  split_ifs with h1 h2
  · intro h
    cases h
  · intro h
    cases h
    exact isNotExist_of_exists env _ _
      (Run_post env hT _ _ _ (outFile_key opts) (by simpa using h2))
  · intro h
    cases h
    simpa [State.emit] using h1

theorem stepAppCsr_post (env : Env) (hT : ToolContract env) (opts : CreateAppCrtOptions)
    (s t : State) (h : stepAppCsr env opts s = .done t) :
    isNotExist env (applicationCsrFile opts) t.fs = false := by
  revert h
  simp only [stepAppCsr, statNotExist]
  split_ifs with h1 h2
  · intro h
    cases h
  · intro h
    cases h
    exact isNotExist_of_exists env _ _
      (Run_post env hT _ _ _ (outFile_csr opts) (by simpa using h2))
  · intro h
    cases h
    simpa [State.emit] using h1

theorem stepAppCrt_post (env : Env) (hT : ToolContract env) (opts : CreateAppCrtOptions)
    (s t : State) (h : stepAppCrt env opts s = .done t) :
    isNotExist env (applicationCrtFile opts) t.fs = false := by
  revert h
  simp only [stepAppCrt, statNotExist]
  split_ifs with h1 h2
  · intro h
    cases h
  · intro h
    cases h
    exact isNotExist_of_exists env _ _
      (Run_post env hT _ _ _ (outFile_crt opts) (by simpa using h2))
  · intro h
    cases h
    simpa [State.emit] using h1

theorem stepPfx_post (env : Env) (hT : ToolContract env) (opts : CreateAppCrtOptions)
    (s t : State) (h : stepPfx env opts s = .done t) (hp : opts.P12 = true) :
    isNotExist env (applicationPfxFile opts) t.fs = false := by
  revert h
  simp only [stepPfx, statNotExist, hp, if_true]
  split_ifs with h1 h2
  · intro h
    cases h
  · intro h
    cases h
    exact isNotExist_of_exists env _ _
      (Run_post env hT _ _ _ (outFile_pfx opts) (by simpa using h2))
  · intro h
    cases h
    simpa [State.emit] using h1

theorem stepAppCnf_keeps (env : Env) (opts : CreateAppCrtOptions) (s : State) (p : Path)
    (h : s.fs p ≠ none) : (stepAppCnf env opts s).state.fs p ≠ none := by
  simp only [stepAppCnf, statNotExist]
  cases prepareAppCnf env opts.AppName opts.CommonName opts.AltNames <;>
    simp only [] <;> split_ifs <;> first
    | exact WriteFile_keeps env _ p _ _ h
    | exact h

theorem stepAppCnf_post (env : Env) (opts : CreateAppCrtOptions) (s t : State)
    (h : stepAppCnf env opts s = .done t) :
    isNotExist env (applicationCnfFile opts) t.fs = false := by
  revert h
  simp only [stepAppCnf, statNotExist]
  cases prepareAppCnf env opts.AppName opts.CommonName opts.AltNames with
  | none =>
    simp only []
    split_ifs with h1
    · intro h
      cases h
    · intro h
      cases h
      simpa [State.emit] using h1
  | some appCnf =>
    simp only []
    split_ifs with h1 h2
    · intro h
      cases h
      exact isNotExist_of_exists env _ _ (WriteFile_post env _ _ _ h2)
    · intro h
      cases h
    · intro h
      cases h
      simpa [State.emit] using h1

theorem writeFullchain_keeps (env : Env) (opts : CreateAppCrtOptions) (R I L : Bytes)
    (s : State) (p : Path) (h : s.fs p ≠ none) :
    (writeFullchain env opts R I L s).state.fs p ≠ none := by
  have hc := Create_keeps env (appFullchainCrtFile opts) p
    ((statNotExist env (appFullchainCrtFile opts) s).2.emit
      (.log .debug "App fullchain crt being created.")) h
  have ho : (OpenFile env (appFullchainCrtFile opts) (Create env (appFullchainCrtFile opts)
      ((statNotExist env (appFullchainCrtFile opts) s).2.emit
        (.log .debug "App fullchain crt being created."))).2).2.fs p ≠ none := by
    rw [OpenFile_fs]
    exact hc
  have hw1 := Write_keeps env (appFullchainCrtFile opts) p L _ ho
  have hw2 := Write_keeps env (appFullchainCrtFile opts) p I _ hw1
  have hw3 := Write_keeps env (appFullchainCrtFile opts) p R _ hw2
  simp only [writeFullchain]
  split_ifs <;> first
    | exact hw3
    | exact hw2
    | exact hw1
    | exact ho
    | exact hc
    | exact h

theorem writeFullchain_post (env : Env) (opts : CreateAppCrtOptions) (R I L : Bytes)
    (s t : State) (h : writeFullchain env opts R I L s = .done t) :
    isNotExist env (appFullchainCrtFile opts) t.fs = false := by
  cases hfc : isNotExist env (appFullchainCrtFile opts) s.fs with
  | false =>
    rw [writeFullchain_skip env opts R I L s hfc] at h
    cases h
    exact hfc
  | true =>
    revert h
    simp only [writeFullchain, statNotExist, hfc, if_true]
    split_ifs with h1 h2 h3 h4 h5
    · intro h
      cases h
      have hc := Create_post env (appFullchainCrtFile opts) _ h1
      have ho : (OpenFile env (appFullchainCrtFile opts) (Create env (appFullchainCrtFile opts)
          ((s.emit (.stat (appFullchainCrtFile opts))).emit
            (.log .debug "App fullchain crt being created."))).2).2.fs
            (appFullchainCrtFile opts) ≠ none := by
        rw [OpenFile_fs]
        exact hc
      exact isNotExist_of_exists env _ _
        (Write_keeps env _ _ R _ (Write_keeps env _ _ I _ (Write_keeps env _ _ L _ ho)))
    all_goals
      intro h
      cases h

theorem stepFullchain_keeps (env : Env) (opts : CreateAppCrtOptions) (s : State) (p : Path)
    (h : s.fs p ≠ none) : (stepFullchain env opts s).state.fs p ≠ none := by
  simp only [stepFullchain, ReadFile_snd]
  split
  · exact h
  · split
    · exact h
    · split
      · exact h
      · exact writeFullchain_keeps env opts _ _ _ _ p h

theorem stepFullchain_post (env : Env) (opts : CreateAppCrtOptions) (s t : State)
    (h : stepFullchain env opts s = .done t) :
    isNotExist env (appFullchainCrtFile opts) t.fs = false := by
  revert h
  simp only [stepFullchain, ReadFile_snd]
  split
  · intro h
    cases h
  · split
    · intro h
      cases h
    · split
      · intro h
        cases h
      · intro h
        exact writeFullchain_post env opts _ _ _ _ t h

/-- C4: under the tool's invocation contract (a command removes no path, a
successful command leaves its output file in place), when a run of
`CreateAppCrt` returns, a second run with the same request on the file system
it left runs no command and creates or writes nothing (it only probes, reads
and logs), and it leaves the file system, hence every artifact, exactly as
the first run left it. -/
theorem CreateAppCrt_idempotent (env : Env) (opts : CreateAppCrtOptions) (s s1 : State)
    (hT : ToolContract env) (h1 : CreateAppCrt env opts s = .done s1) :
    (CreateAppCrt env opts (State.init s1.fs)).state.fs = s1.fs
      ∧ ∀ e ∈ (CreateAppCrt env opts (State.init s1.fs)).state.trace,
          e.readOnly = true ∧ e.target = none := by
  obtain ⟨a7, h1, hsum⟩ := andThen_done h1
  obtain ⟨a6, h1, hpfx⟩ := andThen_done h1
  obtain ⟨a5, h1, hfull⟩ := andThen_done h1
  obtain ⟨a4, h1, hcrt⟩ := andThen_done h1
  obtain ⟨a3, h1, hcsr⟩ := andThen_done h1
  obtain ⟨a2, h1, hcnf⟩ := andThen_done h1
  obtain ⟨a1, hdir, hkey⟩ := andThen_done h1
  have k2 : ∀ p, isNotExist env p a1.fs = false → isNotExist env p a2.fs = false :=
    fun p => isNotExist_keeps env p a1.fs a2.fs (fun hp => by
      have := (stepTool_keeps env hT opts a1 p hp).1
      rw [hkey] at this
      exact this)
  have k3 : ∀ p, isNotExist env p a2.fs = false → isNotExist env p a3.fs = false :=
    fun p => isNotExist_keeps env p a2.fs a3.fs (fun hp => by
      have := stepAppCnf_keeps env opts a2 p hp
      rw [hcnf] at this
      exact this)
  have k4 : ∀ p, isNotExist env p a3.fs = false → isNotExist env p a4.fs = false :=
    fun p => isNotExist_keeps env p a3.fs a4.fs (fun hp => by
      have := (stepTool_keeps env hT opts a3 p hp).2.1
      rw [hcsr] at this
      exact this)
  have k5 : ∀ p, isNotExist env p a4.fs = false → isNotExist env p a5.fs = false :=
    fun p => isNotExist_keeps env p a4.fs a5.fs (fun hp => by
      have := (stepTool_keeps env hT opts a4 p hp).2.2.1
      rw [hcrt] at this
      exact this)
  have k6 : ∀ p, isNotExist env p a5.fs = false → isNotExist env p a6.fs = false :=
    fun p => isNotExist_keeps env p a5.fs a6.fs (fun hp => by
      have := stepFullchain_keeps env opts a5 p hp
      rw [hfull] at this
      exact this)
  have k7 : ∀ p, isNotExist env p a6.fs = false → isNotExist env p a7.fs = false :=
    fun p => isNotExist_keeps env p a6.fs a7.fs (fun hp => by
      have := (stepTool_keeps env hT opts a6 p hp).2.2.2
      rw [hpfx] at this
      exact this)
  have k8 : s1.fs = a7.fs := by
    have := stepSummary_fs env opts a7
    rw [hsum] at this
    exact this
  have e1 : isNotExist env (appCrtDir opts) s1.fs = false := by
    rw [k8]
    exact k7 _ (k6 _ (k5 _ (k4 _ (k3 _ (k2 _ (stepAppDir_post env opts s a1 hdir))))))
  have e2 : isNotExist env (applicationKeyFile opts) s1.fs = false := by
    rw [k8]
    exact k7 _ (k6 _ (k5 _ (k4 _ (k3 _ (stepAppKey_post env hT opts a1 a2 hkey)))))
  have e3 : isNotExist env (applicationCnfFile opts) s1.fs = false := by
    rw [k8]
    exact k7 _ (k6 _ (k5 _ (k4 _ (stepAppCnf_post env opts a2 a3 hcnf))))
  have e4 : isNotExist env (applicationCsrFile opts) s1.fs = false := by
    rw [k8]
    exact k7 _ (k6 _ (k5 _ (stepAppCsr_post env hT opts a3 a4 hcsr)))
  have e5 : isNotExist env (applicationCrtFile opts) s1.fs = false := by
    rw [k8]
    exact k7 _ (k6 _ (stepAppCrt_post env hT opts a4 a5 hcrt))
  have e6 : isNotExist env (appFullchainCrtFile opts) s1.fs = false := by
    rw [k8]
    exact k7 _ (stepFullchain_post env opts a5 a6 hfull)
  have e7 : opts.P12 = true → isNotExist env (applicationPfxFile opts) s1.fs = false := by
    intro hp
    rw [k8]
    exact stepPfx_post env hT opts a6 a7 hpfx hp
  have q1 : Quiet (State.init s1.fs) (stepAppDir env opts (State.init s1.fs)) :=
    quiet_of_skip opts _ _ 1 (stepAppDir_skip env opts (State.init s1.fs) e1)
  have q2 : ∀ t : State, t.fs = (State.init s1.fs).fs → Quiet t (stepAppKey env opts t) :=
    fun t ht => quiet_of_skip opts t _ 2 (stepAppKey_skip env opts t (by rw [ht]; exact e2))
  have q3 : ∀ t : State, t.fs = (State.init s1.fs).fs → Quiet t (stepAppCnf env opts t) :=
    fun t ht => quiet_of_skip opts t _ 3 (stepAppCnf_skip env opts t (by rw [ht]; exact e3))
  have q4 : ∀ t : State, t.fs = (State.init s1.fs).fs → Quiet t (stepAppCsr env opts t) :=
    fun t ht => quiet_of_skip opts t _ 4 (stepAppCsr_skip env opts t (by rw [ht]; exact e4))
  have q5 : ∀ t : State, t.fs = (State.init s1.fs).fs → Quiet t (stepAppCrt env opts t) :=
    fun t ht => quiet_of_skip opts t _ 5 (stepAppCrt_skip env opts t (by rw [ht]; exact e5))
  have q6 : ∀ t : State, t.fs = (State.init s1.fs).fs → Quiet t (stepFullchain env opts t) :=
    fun t ht => stepFullchain_quiet env opts t (by rw [ht]; exact e6)
  have q7 : ∀ t : State, t.fs = (State.init s1.fs).fs → Quiet t (stepPfx env opts t) := by
    intro t ht
    refine stepPfx_quiet env opts t ?_
    by_cases hp : opts.P12 = true
    · exact Or.inl (by rw [ht]; exact e7 hp)
    · exact Or.inr (by simpa using hp)
  have q8 : ∀ t : State, t.fs = (State.init s1.fs).fs → Quiet t (stepSummary env opts t) :=
    fun t _ => stepSummary_quiet env opts t
  have hq : Quiet (State.init s1.fs) (CreateAppCrt env opts (State.init s1.fs)) :=
    Quiet.chain (Quiet.chain (Quiet.chain (Quiet.chain (Quiet.chain
      (Quiet.chain (Quiet.chain q1 q2) q3) q4) q5) q6) q7) q8
  obtain ⟨hfs, new, hnew, hP⟩ := hq
  refine ⟨hfs, ?_⟩
  intro e he
  rw [hnew] at he
  exact hP e (by simpa [State.init] using he)

theorem toolExec_contract : ToolContract linuxEnv := by
  constructor
  · intro c fs p h
    show (toolExec c fs).fs p ≠ none
    unfold toolExec
    split
    · exact FS.set_ne_none _ _ _ _ h
    · exact h
  · intro c fs p hout _
    show (toolExec c fs).fs p ≠ none
    unfold Cmd.outFile at hout
    unfold toolExec
    split
    · rename_i q _ heq
      rw [heq] at hout
      simp only [Option.some.injEq] at hout
      subst hout
      simp [FS.set_same]
    · rename_i hno
      split at hout
      · rename_i q rest heq
        exact absurd heq (hno q rest)
      · cases hout

/-- Witness of C4: after issuing the `web` certificate on a file system that
holds the CA files, a second run changes nothing and only probes, reads and
logs. -/
theorem CreateAppCrt_idempotent_witness :
    (CreateAppCrt linuxEnv webOpts
        (State.init (CreateAppCrt linuxEnv webOpts (State.init caFS)).state.fs)).state.fs
        = (CreateAppCrt linuxEnv webOpts (State.init caFS)).state.fs
      ∧ ∀ e ∈ (CreateAppCrt linuxEnv webOpts
          (State.init (CreateAppCrt linuxEnv webOpts (State.init caFS)).state.fs)).state.trace,
          e.readOnly = true ∧ e.target = none :=
  CreateAppCrt_idempotent linuxEnv webOpts (State.init caFS)
    (CreateAppCrt linuxEnv webOpts (State.init caFS)).state toolExec_contract
    (Outcome.eq_done_of_isFatal _ (by decide))

end Crtforge
